import Mathlib

/-!
Shallow embedding of the docschema temporal document register
(`DocumentRegister`) and comparator (`DocumentComparator`).

Modelling conventions, used throughout:
- JS runtime values are the inductive `Val` (JSON-shaped, acyclic).  Numbers
  are modelled as `Int` (the records are JSON-shaped; `NaN`/`Infinity` and
  float rounding are outside the model).
- ISO-8601 timestamp strings are modelled by their epoch value as `Int`;
  `new Date(a) <= new Date(b)` on such strings is the numeric comparison.
  A `null`able timestamp is `Option Int` (`none` = JS `null`/`undefined`;
  a present ISO string is always truthy).
- A JS object is an insertion-ordered association list
  `List (String × Val)`; object spread and `Map.set` overwrite a present
  key in place and append a fresh key, which `jsSet`/`jsSpread` mirror.
- `x || y` on values is `jsOr` (truthiness test on `Val`).
-/

namespace DocSchema

/-- JSON-shaped JS runtime value; `vUndefined` is JS `undefined`. -/
inductive Val where
  | vUndefined : Val
  | vNull : Val
  | vBool : Bool → Val
  | vNum : Int → Val
  | vStr : String → Val
  | vArr : List Val → Val
  | vObj : List (String × Val) → Val
deriving Repr

/-- JS `typeof`. -/
def typeofVal : Val → String
  | .vUndefined => ("undefined")
  | .vNull => ("object")
  | .vBool _ => ("boolean")
  | .vNum _ => ("number")
  | .vStr _ => ("string")
  | .vArr _ => ("object")
  | .vObj _ => ("object")

def isUndefined : Val → Bool
  | .vUndefined => true
  | _ => false

/-- JS truthiness: `undefined`, `null`, `false`, `0`, `""` are falsy. -/
def valTruthy : Val → Bool
  | .vUndefined => false
  | .vNull => false
  | .vBool b => b
  | .vNum n => n != 0
  | .vStr s => !s.isEmpty
  | .vArr _ => true
  | .vObj _ => true

/-- JS `a || b`. -/
def jsOr (a b : Val) : Val := if valTruthy a then a else b

/-- JS strict equality `===` on the values that occur here: structural on
primitives; two distinct array/object literals are distinct references and
compare `false` (the code never compares an object against itself by
reference before falling back to `JSON.stringify`, see `areEqual`). -/
def strictEq : Val → Val → Bool
  | .vUndefined, .vUndefined => true
  | .vNull, .vNull => true
  | .vBool a, .vBool b => a == b
  | .vNum a, .vNum b => a == b
  | .vStr a, .vStr b => a == b
  | _, _ => false

mutual
/-- Structural value equality, modelling JS `SameValueZero` on the
primitive ids used by the code (used for `new Set(...)` dedup). -/
def valBeq : Val → Val → Bool
  | .vUndefined, .vUndefined => true
  | .vNull, .vNull => true
  | .vBool a, .vBool b => a == b
  | .vNum a, .vNum b => a == b
  | .vStr a, .vStr b => a == b
  | .vArr xs, .vArr ys => valBeqList xs ys
  | .vObj fs, .vObj gs => valBeqObj fs gs
  | _, _ => false

def valBeqList : List Val → List Val → Bool
  | [], [] => true
  | x :: xs, y :: ys => valBeq x y && valBeqList xs ys
  | _, _ => false

def valBeqObj : List (String × Val) → List (String × Val) → Bool
  | [], [] => true
  | (k, v) :: fs, (k2, v2) :: gs => k == k2 && valBeq v v2 && valBeqObj fs gs
  | _, _ => false
end

/-- Minimal JSON string quoting (escapes backslash and quote); used only
for equality comparisons between serializations. -/
def jsonQuote (s : String) : String :=
  ("\"") ++ (s.toList.map fun c =>
    if c == ('\\') then ("\\\\") else if c == ('"') then ("\\\"") else String.mk [c]).foldl
    (· ++ ·) ("") ++ ("\"")

mutual
/-- Model of `JSON.stringify`: `none` for `undefined` (JS returns `undefined`);
`undefined` array elements serialize as `null`, `undefined` object values
are dropped. -/
def jsonStringify : Val → Option String
  | .vUndefined => none
  | .vNull => some ("null")
  | .vBool b => some (if b then ("true") else ("false"))
  | .vNum n => some (toString n)
  | .vStr s => some (jsonQuote s)
  | .vArr xs => some (("[") ++ String.intercalate (",") (jsonStringifyList xs) ++ ("]"))
  | .vObj fs => some (("\x7b") ++ String.intercalate (",") (jsonStringifyObj fs) ++ ("\x7d"))

def jsonStringifyList : List Val → List String
  | [] => []
  | x :: xs => ((jsonStringify x).getD ("null")) :: jsonStringifyList xs

def jsonStringifyObj : List (String × Val) → List String
  | [] => []
  | (k, v) :: fs =>
    match jsonStringify v with
    | some sv => (jsonQuote k ++ (":") ++ sv) :: jsonStringifyObj fs
    | none => jsonStringifyObj fs
end

/-- Substring test, modelling `String.prototype.includes`. -/
def strContains (s sub : String) : Bool :=
  sub.isEmpty || (s.splitOn sub).length > 1

mutual
/-- JS `String(v)` on the values used here: arrays join with commas
(`null`/`undefined` elements join as empty), objects print as
`[object Object]`. -/
def valToString : Val → String
  | .vUndefined => ("undefined")
  | .vNull => ("null")
  | .vBool b => if b then ("true") else ("false")
  | .vNum n => toString n
  | .vStr s => s
  | .vArr xs => String.intercalate (",") (valToStringList xs)
  | .vObj _ => ("[object Object]")

def valToStringList : List Val → List String
  | [] => []
  | x :: xs =>
    (match x with
     | .vUndefined => ("")
     | .vNull => ("")
     | v => valToString v) :: valToStringList xs
end

/-- First-match association-list lookup: JS property access `o[k]`
(`undefined` when absent).  Keys of objects built by the code are unique,
so first-match agrees with JS. -/
def lookupVal : List (String × Val) → String → Val
  | [], _ => .vUndefined
  | (k, v) :: fs, key => if k == key then v else lookupVal fs key

/-- Model of `Object.entries` for the values that carry enumerable fields in this
model (objects, and arrays keyed by their canonical decimal index
strings; index properties of strings are out of scope, the records'
data are mappings). -/
def jsEntries : Val → List (String × Val)
  | .vObj fs => fs
  | .vArr xs => (List.range xs.length).map fun i => (toString i, xs.getD i .vUndefined)
  | _ => []

/-- Model of `Object.keys` (same scope as `jsEntries`). -/
def jsKeys (v : Val) : List String := (jsEntries v).map Prod.fst

/-- JS optional property access `o?.[k]`: first matching enumerable
entry, `undefined` when absent. -/
def optGet (v : Val) (key : String) : Val := lookupVal (jsEntries v) key

/-- Deduplication keeping the FIRST occurrence, in insertion order: the
semantics of `new Set([...])` (insert one by one, skip an element equal
to one already seen). -/
def dedupFirstAux (eqb : α → α → Bool) (seen : List α) : List α → List α
  | [] => []
  | x :: xs =>
    if seen.any (fun y => eqb y x) then dedupFirstAux eqb seen xs
    else x :: dedupFirstAux eqb (seen ++ [x]) xs

def dedupFirst (eqb : α → α → Bool) (l : List α) : List α :=
  dedupFirstAux eqb [] l

/-- Model of `new Set(l).size`. -/
def countDistinct (eqb : α → α → Bool) (l : List α) : Nat :=
  (dedupFirst eqb l).length

/-- Model of `Map.set` / object-literal key write: overwrite a present key in
place, append a fresh key. -/
def mapSet (m : List (String × α)) (key : String) (v : α) : List (String × α) :=
  if m.any (fun p => p.1 == key) then
    m.map (fun p => if p.1 == key then (key, v) else p)
  else
    m ++ [(key, v)]

/-- First-match lookup in a string-keyed association list. -/
def mapGet (m : List (String × α)) (key : String) : Option α :=
  (m.find? (fun p => p.1 == key)).map Prod.snd

/-- JS object spread `\x7b ...m, ...extra \x7d`. -/
def jsSpread (m extra : List (String × Val)) : List (String × Val) :=
  extra.foldl (fun acc p => mapSet acc p.1 p.2) m

/-- Model of `_areEqual` (DocumentComparator): strict equality, then, for equal
`typeof` both `object`, `JSON.stringify` comparison. -/
def areEqual (a b : Val) : Bool :=
  if strictEq a b then true
  else if typeofVal a != typeofVal b then false
  else if typeofVal a == ("object") then jsonStringify a == jsonStringify b
  else false

/-- JS relational `<` on the same-type operands the query contract (§6)
uses: numeric and lexicographic string comparison; other combinations
are modelled as `false`. -/
def jsLt (a b : Val) : Bool :=
  match a, b with
  | .vNum x, .vNum y => x < y
  | .vStr x, .vStr y => decide (x < y)
  | _, _ => false

/-- JS relational `>`, same scope as `jsLt`. -/
def jsGt (a b : Val) : Bool := jsLt b a

/-- Insertion into a list sorted by the boolean comparator `le`
(`le x y` = "x may come before y"). -/
def insertSorted (le : α → α → Bool) (x : α) : List α → List α
  | [] => [x]
  | y :: ys => if le x y then x :: y :: ys else y :: insertSorted le x ys

/-- Model of `Array.prototype.sort(cmp)`: ECMAScript guarantees the result is a
permutation of the input ordered consistently with the comparator (for a
consistent comparator); modelled as insertion sort on the comparator's
"comes before" relation. -/
def sortB (le : α → α → Bool) (l : List α) : List α :=
  l.foldr (insertSorted le) []

lemma val_sizeOf_pos (v : Val) : 1 ≤ sizeOf v := by
  cases v <;> simp_arith

lemma mem_of_mem_dedupFirstAux {eqb : α → α → Bool} {l : List α} {x : α} :
    ∀ {seen : List α}, x ∈ dedupFirstAux eqb seen l → x ∈ l := by
  induction l with
  | nil => intro seen h; simp [dedupFirstAux] at h
  | cons y ys ih =>
    intro seen h
    rw [dedupFirstAux] at h
    by_cases hs : seen.any (fun z => eqb z y)
    · rw [if_pos hs] at h
      exact List.mem_cons_of_mem _ (ih h)
    · rw [if_neg hs] at h
      rcases List.mem_cons.mp h with h1 | h2
      · exact h1 ▸ List.mem_cons_self _ _
      · exact List.mem_cons_of_mem _ (ih h2)

lemma mem_of_mem_dedupFirst {eqb : α → α → Bool} {l : List α} {x : α}
    (h : x ∈ dedupFirst eqb l) : x ∈ l :=
  mem_of_mem_dedupFirstAux h

lemma lookupVal_cases (fs : List (String × Val)) (k : String) :
    lookupVal fs k = .vUndefined ∨ ∃ p ∈ fs, lookupVal fs k = p.2 := by
  induction fs with
  | nil => exact Or.inl rfl
  | cons p ps ih =>
    by_cases h : p.1 == k
    · exact Or.inr ⟨p, List.mem_cons_self _ _, by simp [lookupVal, h]⟩
    · rcases ih with h1 | ⟨q, hq, he⟩
      · exact Or.inl (by simpa [lookupVal, h] using h1)
      · exact Or.inr ⟨q, List.mem_cons_of_mem _ hq, by simpa [lookupVal, h] using he⟩

lemma sizeOf_snd_lt_of_mem_jsEntries {v : Val} {p : String × Val}
    (h : p ∈ jsEntries v) : sizeOf p.2 < sizeOf v := by
  cases v <;> simp only [jsEntries, List.mem_map, List.mem_range, List.not_mem_nil] at h
  case vObj fs =>
    have h1 : sizeOf p < sizeOf fs := List.sizeOf_lt_of_mem h
    have h2 : sizeOf p.2 < sizeOf p := by
      cases p with
      | mk a b => simp_arith
    simp only [Val.vObj.sizeOf_spec]
    omega
  case vArr xs =>
    rcases h with ⟨i, hi, he⟩
    have hget : xs.getD i .vUndefined = xs.get ⟨i, hi⟩ := by
      simp [List.getD_eq_getElem?_getD, List.getElem?_eq_getElem hi]
    have hmem : xs.getD i .vUndefined ∈ xs := by
      rw [hget]
      exact xs.get_mem _ _
    have h1 : sizeOf (xs.getD i .vUndefined) < sizeOf xs := List.sizeOf_lt_of_mem hmem
    have h2 : p.2 = xs.getD i .vUndefined := by rw [← he]
    rw [h2]
    simp only [Val.vArr.sizeOf_spec]
    omega

lemma optGet_size_le (v : Val) (k : String) : sizeOf (optGet v k) ≤ sizeOf v := by
  unfold optGet
  rcases lookupVal_cases (jsEntries v) k with h | ⟨p, hp, he⟩
  · rw [h]
    exact val_sizeOf_pos v
  · rw [he]
    exact Nat.le_of_lt (sizeOf_snd_lt_of_mem_jsEntries hp)

lemma optGet_size_lt {v : Val} {k : String} (h : k ∈ jsKeys v) :
    sizeOf (optGet v k) < sizeOf v := by
  rcases List.mem_map.mp h with ⟨p, hp, _⟩
  unfold optGet
  rcases lookupVal_cases (jsEntries v) k with h1 | ⟨q, hq, he⟩
  · rw [h1]
    have h2 : sizeOf p.2 < sizeOf v := sizeOf_snd_lt_of_mem_jsEntries hp
    have h3 : 1 ≤ sizeOf p.2 := val_sizeOf_pos _
    simpa using Nat.lt_of_le_of_lt h3 h2
  · rw [he]
    exact sizeOf_snd_lt_of_mem_jsEntries hq

/-!
## DocumentComparator (src/src/CitationTracker.js, class DocumentComparator)

`compare` carries environment-supplied fields (`comparisonId` from uuid,
`timestamp` from the clock, the `documentA`/`documentB` projections of its
inputs); those are omitted from the embedded result, which keeps
`identical`, `differences`, `statistics` and `summary`.
-/

mutual
/-- One entry of a comparison's `differences` list: field name,
classification (`added` / `removed` / `numeric_change` / `text_change` /
`array_change` / `object_change` / `modified`), the two values, the
significance score, and the classification-specific detail fields the
source spreads into the record. -/
inductive Diff where
  | mk : String → String → Val → Val → ℚ → DiffDetails → Diff

/-- The `...details` spread of `_compareValues`. -/
inductive DiffDetails where
  | noDetails : DiffDetails
  | numeric : Int → Option ℚ → DiffDetails
  | text : Int → DiffDetails
  | arrayDiff : Nat → Nat → List Val → List Val → DiffDetails
  | objectDiff : Nat → List Diff → DiffDetails
end

def Diff.dfield : Diff → String
  | .mk f _ _ _ _ _ => f

def Diff.dtype : Diff → String
  | .mk _ t _ _ _ _ => t

def Diff.significance : Diff → ℚ
  | .mk _ _ _ _ s _ => s

/-- Model of `_commonPrefixLength`. -/
def commonPrefixLength : List Char → List Char → Nat
  | x :: xs, y :: ys => if x == y then 1 + commonPrefixLength xs ys else 0
  | _, _ => 0

/-- Model of `_calculateSignificance`: 0.5 around null/undefined, relative
magnitude (clamped to 1) for numbers, `1 - commonPrefix/maxLen` for
strings, 0.5 otherwise. -/
def calculateSignificance (oldVal newVal : Val) : ℚ :=
  match oldVal, newVal with
  | .vNull, _ => 1/2
  | .vUndefined, _ => 1/2
  | _, .vNull => 1/2
  | _, .vUndefined => 1/2
  | .vNum o, .vNum n =>
    min |((n - o : Int) : ℚ) / ((if o = 0 then 1 else o : Int) : ℚ)| 1
  | .vStr o, .vStr n =>
    let maxLen := max o.length n.length
    if maxLen = 0 then 0
    else 1 - ((commonPrefixLength o.toList n.toList : ℚ) / (maxLen : ℚ))
  | _, _ => 1/2

/-- Model of `_compareArrays`: element added/removed sets by `_areEqual`. -/
def compareArrays (arrA arrB : List Val) : DiffDetails :=
  let added := arrB.filter fun b => !(arrA.any fun a => areEqual a b)
  let removed := arrA.filter fun a => !(arrB.any fun b => areEqual a b)
  .arrayDiff added.length removed.length added removed

mutual
/-- Model of `_compareValues`: classify the change between two field values
(`none` = no difference). -/
def compareValues (deep : Bool) (valueA valueB : Val) (field : String) :
    Option Diff :=
  if isUndefined valueA && !isUndefined valueB then
    some (.mk field ("added") .vNull valueB
      (calculateSignificance .vNull valueB) .noDetails)
  else if !isUndefined valueA && isUndefined valueB then
    some (.mk field ("removed") valueA .vNull
      (calculateSignificance valueA .vNull) .noDetails)
  else if areEqual valueA valueB then none
  else
    match valueA, valueB with
    | .vNum a, .vNum b =>
      some (.mk field ("numeric_change") (.vNum a) (.vNum b)
        (calculateSignificance (.vNum a) (.vNum b))
        (.numeric (b - a)
          (if a ≠ 0 then some ((((b - a : Int) : ℚ) / (a : ℚ)) * 100) else none)))
    | .vStr a, .vStr b =>
      some (.mk field ("text_change") (.vStr a) (.vStr b)
        (calculateSignificance (.vStr a) (.vStr b))
        (.text ((b.length : Int) - (a.length : Int))))
    | .vArr a, .vArr b =>
      some (.mk field ("array_change") (.vArr a) (.vArr b)
        (calculateSignificance (.vArr a) (.vArr b))
        (compareArrays a b))
    | a, b =>
      if deep && typeofVal a == ("object") && typeofVal b == ("object") then
        let changes := compareObjects deep a b
        some (.mk field ("object_change") a b
          (calculateSignificance a b) (.objectDiff changes.length changes))
      else
        some (.mk field ("modified") a b
          (calculateSignificance a b) .noDetails)
termination_by (sizeOf valueA + sizeOf valueB, 1)
decreasing_by
  apply Prod.Lex.right
  omega

/-- Model of `_compareObjects`: recursive diff over the key union (a falsy side
contributes no keys; values are read with optional chaining). -/
def compareObjects (deep : Bool) (a b : Val) : List Diff :=
  let keys := dedupFirst (fun x y => x == y) (jsKeys a ++ jsKeys b)
  (keys.attach.map fun kh =>
    compareValues deep (optGet a kh.1) (optGet b kh.1) kh.1).reduceOption
termination_by (sizeOf a + sizeOf b, 0)
decreasing_by
  apply Prod.Lex.left
  have hk : kh.1 ∈ jsKeys a ++ jsKeys b :=
    mem_of_mem_dedupFirst kh.2
  rcases List.mem_append.mp hk with h | h
  · have h1 := optGet_size_lt h
    have h2 := optGet_size_le b kh.1
    omega
  · have h1 := optGet_size_le a kh.1
    have h2 := optGet_size_lt h
    omega
end

/-- Default `ignoreFields` of the comparator. -/
def defaultIgnoreFields : List String :=
  [("extractionId"), ("timestamp"), ("durationMs")]

structure Stats where
  totalFields : Nat
  totalDifferences : Nat
  added : Nat
  removed : Nat
  modified : Nat
  changePercentage : ℚ
  averageSignificance : ℚ
deriving Repr

/-- Model of `_calculateStats`. -/
def calculateStats (differences : List Diff) (totalFields : Nat) : Stats :=
  let added := (differences.filter fun d => d.dtype == ("added")).length
  let removed := (differences.filter fun d => d.dtype == ("removed")).length
  { totalFields := totalFields
    totalDifferences := differences.length
    added := added
    removed := removed
    modified := differences.length - added - removed
    changePercentage :=
      if totalFields > 0 then (differences.length : ℚ) / (totalFields : ℚ) else 0
    averageSignificance :=
      if differences.length > 0 then
        (differences.foldl (fun sum d => sum + d.significance) 0) /
          (differences.length : ℚ)
      else 0 }

/-- Model of `_generateSummary`. -/
def generateSummary (differences : List Diff) (stats : Stats) : String :=
  if differences.length = 0 then ("Documents are identical")
  else
    String.intercalate (", ")
      ((if stats.added > 0 then [toString stats.added ++ (" field(s) added")] else []) ++
       (if stats.removed > 0 then [toString stats.removed ++ (" field(s) removed")] else []) ++
       (if stats.modified > 0 then [toString stats.modified ++ (" field(s) modified")] else []))

structure CompareResult where
  identical : Bool
  differences : List Diff
  statistics : Stats
  summary : String

/-- Model of `compare`, applied to the two data mappings (`docX.data || docX` in
the source resolves to a `Val` either way). -/
def compareData (ignoreFields : List String) (deep : Bool) (dataA dataB : Val) :
    CompareResult :=
  let allFields := dedupFirst (fun x y => x == y) (jsKeys dataA ++ jsKeys dataB)
  let differences := allFields.filterMap fun f =>
    if ignoreFields.contains f then none
    else compareValues deep (optGet dataA f) (optGet dataB f) f
  let stats := calculateStats differences allFields.length
  { identical := differences.length == 0
    differences := differences
    statistics := stats
    summary := generateSummary differences stats }

/-!
### findConflicts

Conflict-detection documents carry `id`, `version`, `data`,
`effectiveFrom`, `effectiveTo` (the `doc.data || doc` fallback for bare
data documents is folded into the `data` field).
-/

structure CDoc where
  id : Val
  version : Val
  data : Val
  effectiveFrom : Option Int
  effectiveTo : Option Int

/-- The per-field value record `findConflicts` groups.  NOTE: the source
builds it from `documentId`, `version`, `value` and `effectiveFrom`
only — it never copies the document's `effectiveTo`, so that field is
always `undefined` (`none`) in these records. -/
structure FieldValue where
  documentId : Val
  version : Val
  value : Val
  effectiveFrom : Option Int
  effectiveTo : Option Int

structure OverlapPeriod where
  documents : List Val
  overlapStart : Int
  overlapEnd : Int

structure Conflict where
  cfield : String
  ctype : String
  severity : ℚ
  documents : List FieldValue
  overlappingPeriods : List OverlapPeriod
  recommendation : String

structure FindConflictsResult where
  hasConflicts : Bool
  conflictCount : Nat
  conflicts : List Conflict
  summary : String

/-- Model of `new Date('9999-12-31').getTime()`, the sentinel the source uses for
a missing `effectiveTo`. -/
def farFuture : Int := 253402214400000

/-- Append one field value under its field name, preserving the `Map`'s
first-insertion key order. -/
def pushFieldValue (m : List (String × List FieldValue)) (k : String)
    (v : FieldValue) : List (String × List FieldValue) :=
  if m.any (fun p => p.1 == k) then
    m.map fun p => if p.1 == k then (p.1, p.2 ++ [v]) else p
  else
    m ++ [(k, [v])]

/-- The `fieldValues` grouping pass of `findConflicts`. -/
def collectFieldValues (fieldsToCheck : Option (List String))
    (documents : List CDoc) : List (String × List FieldValue) :=
  documents.foldl
    (fun m doc =>
      (jsEntries doc.data).foldl
        (fun m2 kv =>
          let skip := match fieldsToCheck with
            | some fts => !fts.contains kv.1
            | none => false
          if skip then m2
          else
            pushFieldValue m2 kv.1
              { documentId := doc.id
                version := doc.version
                value := kv.2
                effectiveFrom := doc.effectiveFrom
                effectiveTo := none })
        m)
    []

/-- All index pairs `i < j` of a list, in source iteration order. -/
def allPairs : List α → List (α × α)
  | [] => []
  | x :: xs => (xs.map fun y => (x, y)) ++ allPairs xs

/-- Model of `_findOverlappingPeriods`: pairs whose periods overlap under the
closed test `aFrom <= bTo && bFrom <= aTo`, with a missing `effectiveTo`
widened to the year-9999 sentinel, skipping pairs with a missing
`effectiveFrom`. -/
def findOverlappingPeriods (values : List FieldValue) : List OverlapPeriod :=
  (allPairs values).filterMap fun ab =>
    match ab.1.effectiveFrom, ab.2.effectiveFrom with
    | some aFrom, some bFrom =>
      let aTo := ab.1.effectiveTo.getD farFuture
      let bTo := ab.2.effectiveTo.getD farFuture
      if aFrom ≤ bTo ∧ bFrom ≤ aTo then
        some { documents := [ab.1.documentId, ab.2.documentId]
               overlapStart := max aFrom bFrom
               overlapEnd := min aTo bTo }
      else none
    | _, _ => none

/-- Model of `_calculateConflictSeverity`: `min(docCount / 10, 1)` over distinct
document ids. -/
def calculateConflictSeverity (values : List FieldValue) : ℚ :=
  min ((countDistinct valBeq (values.map FieldValue.documentId) : ℚ) / 10) 1

/-- Model of `_generateConflictRecommendation`. -/
def generateConflictRecommendation (f : String) (values : List FieldValue) :
    String :=
  let uniqueValues := dedupFirst (fun a b => a == b)
    (values.map fun v => jsonStringify v.value)
  if uniqueValues.length == 2 then
    ("Review and reconcile the two different values for \"") ++ f ++ ("\"")
  else
    ("Multiple conflicting values found for \"") ++ f ++
      ("\". Manual review required to determine authoritative value.")

/-- Model of `_generateConflictSummary`. -/
def generateConflictSummary (conflicts : List Conflict) : String :=
  if conflicts.length = 0 then ("No conflicts detected")
  else
    let highSeverity :=
      (conflicts.filter fun c => decide ((7 : ℚ)/10 < c.severity)).length
    ("Found ") ++ toString conflicts.length ++ (" conflict(s): ") ++
      toString highSeverity ++ (" high severity")

/-- Model of `findConflicts`: a field conflicts when it has more than one distinct
serialized value AND `_findOverlappingPeriods` reports at least one
overlapping pair among its value records. -/
def findConflicts (conflictFields : Option (List String))
    (documents : List CDoc) : FindConflictsResult :=
  let fieldValues := collectFieldValues conflictFields documents
  let conflicts := fieldValues.filterMap fun fv =>
    let uniqueCount := countDistinct (fun a b => a == b)
      (fv.2.map fun v => jsonStringify v.value)
    if uniqueCount > 1 then
      let overlapping := findOverlappingPeriods fv.2
      if overlapping.length > 0 then
        some { cfield := fv.1
               ctype := ("value_conflict")
               severity := calculateConflictSeverity fv.2
               documents := fv.2
               overlappingPeriods := overlapping
               recommendation := generateConflictRecommendation fv.1 fv.2 }
      else none
    else none
  { hasConflicts := conflicts.length > 0
    conflictCount := conflicts.length
    conflicts := sortB (fun a b => decide (b.severity ≤ a.severity)) conflicts
    summary := generateConflictSummary conflicts }

/-!
## DocumentRegister (src/unnamed/part_002)

The register is modelled with in-memory `Map` storage (an
insertion-ordered association list).  Impure inputs are explicit
parameters: the uuid fallback id `genId` and the clock reading `now`.
Operations that can mutate or may be observed after an error return the
(possibly updated) register alongside their result.
-/

structure HistoryRecord where
  version : Nat
  data : Val
  metadata : List (String × Val)
  effectiveFrom : Int
  effectiveTo : Option Int
  archivedAt : Int

structure Entry where
  id : String
  version : Nat
  createdAt : Int
  updatedAt : Int
  effectiveFrom : Int
  effectiveTo : Option Int
  status : String
  data : Val
  metadata : List (String × Val)
  citations : Val
  history : List HistoryRecord
  archivedAt : Option Int
  archiveReason : Val

structure AuditEntry where
  timestamp : Int
  action : String
  documentId : String
  details : List (String × Val)

/-- The lazily created `category` and `tags` maps of `this.indexes`
(an absent inner map is the empty association list). -/
structure Indexes where
  category : List (Val × List String)
  tags : List (Val × List String)

structure Register where
  storage : List (String × Entry)
  name : String
  schemaId : Val
  enableVersioning : Bool
  enableAuditLog : Bool
  auditLog : List AuditEntry
  indexes : Indexes

/-- A register built with default constructor options. -/
def emptyRegister : Register :=
  { storage := []
    name := ("default")
    schemaId := .vNull
    enableVersioning := true
    enableAuditLog := true
    auditLog := []
    indexes := { category := [], tags := [] } }

/-- Add an id to an index bucket (`Map` of `Set`s). -/
def indexAdd (idx : List (Val × List String)) (key : Val) (id : String) :
    List (Val × List String) :=
  if idx.any (fun p => valBeq p.1 key) then
    idx.map fun p =>
      if valBeq p.1 key then
        (p.1, if p.2.contains id then p.2 else p.2 ++ [id])
      else p
  else idx ++ [(key, [id])]

/-- Model of `_updateIndexes` (the entry's `tags` are arrays by construction). -/
def updateIndexes (ix : Indexes) (e : Entry) : Indexes :=
  let cat := lookupVal e.metadata ("category")
  let ix1 := if valTruthy cat then
      { ix with category := indexAdd ix.category cat e.id }
    else ix
  match lookupVal e.metadata ("tags") with
  | .vArr ts =>
    if ts.length ≠ 0 then
      { ix1 with tags := ts.foldl (fun t tag => indexAdd t tag e.id) ix1.tags }
    else ix1
  | _ => ix1

/-- An absent optional field models a missing/falsy option (the `||`
defaults in the source; the timestamp options are ISO strings, truthy
exactly when present). -/
structure AddOptions where
  id : Option String
  effectiveFrom : Option Int
  effectiveTo : Option Int
  status : Option String
  source : Val
  tags : Val
  category : Val
  metadata : List (String × Val)
  userId : Val

def emptyAddOptions : AddOptions :=
  ⟨none, none, none, none, .vUndefined, .vUndefined, .vUndefined, [], .vUndefined⟩

structure AddResult where
  id : String
  version : Nat
  createdAt : Int
  status : String

/-- The version-1 entry object `add` builds. -/
def freshEntry (r : Register) (document : Val) (options : AddOptions)
    (entryId : String) (now : Int) : Entry :=
  { id := entryId
    version := 1
    createdAt := now
    updatedAt := now
    effectiveFrom := options.effectiveFrom.getD now
    effectiveTo := options.effectiveTo
    status := options.status.getD ("active")
    data := jsOr (optGet document ("data")) document
    metadata := jsSpread
      [ (("schemaId"), jsOr (optGet document ("schemaId")) r.schemaId)
      , (("schemaVersion"), optGet document ("schemaVersion"))
      , (("extractionId"), optGet document ("extractionId"))
      , (("confidence"), optGet document ("confidence"))
      , (("source"), jsOr options.source .vNull)
      , (("tags"), jsOr options.tags (.vArr []))
      , (("category"), jsOr options.category .vNull) ]
      options.metadata
    citations := jsOr (optGet document ("citations")) (.vArr [])
    history := []
    archivedAt := none
    archiveReason := .vUndefined }

/-- Model of `add`: build a fresh version-1 entry with empty history and store it
under `options.id || uuidv4()` — no existence check, a present id is
overwritten. -/
def add (r : Register) (document : Val) (options : AddOptions)
    (genId : String) (now : Int) : AddResult × Register :=
  let entryId := options.id.getD genId
  let entry := freshEntry r document options entryId now
  let r1 := { r with storage := mapSet r.storage entryId entry }
  let r2 := { r1 with indexes := updateIndexes r1.indexes entry }
  let r3 :=
    if r.enableAuditLog then
      { r2 with auditLog := r2.auditLog ++
          [ { timestamp := now
              action := ("ADD")
              documentId := entryId
              details :=
                [ (("version"), .vNum 1)
                , (("effectiveFrom"), .vNum entry.effectiveFrom)
                , (("userId"), options.userId) ] } ] }
    else r2
  ({ id := entryId, version := 1, createdAt := now, status := ("created") }, r3)

inductive RegError where
  | entryNotFound : String → RegError
  | versionNotFound : Nat → String → RegError
deriving DecidableEq, Repr

structure GetOptions where
  version : Option Nat
  asOf : Option Int

def emptyGetOptions : GetOptions := ⟨none, none⟩

/-- A `get` result: the stored entry itself, or the reshaped historic
projection with its `isHistoric` flag. -/
inductive GetView where
  | current : Entry → GetView
  | historic : (id : String) → (version : Nat) → (data : Val) →
      (metadata : List (String × Val)) → (effectiveFrom : Int) →
      (effectiveTo : Option Int) → GetView

def histView (e : Entry) (h : HistoryRecord) : GetView :=
  .historic e.id h.version h.data h.metadata h.effectiveFrom h.effectiveTo

/-- The half-open validity test the source writes inline:
`from <= asOf && (!to || to > asOf)`. -/
def inEffect (effectiveFrom : Int) (effectiveTo : Option Int) (asOf : Int) :
    Bool :=
  effectiveFrom ≤ asOf &&
    (match effectiveTo with
     | none => true
     | some t => asOf < t)

/-- The `asOf` tail of `get`, after the version branch.  When the current
version is not in effect the source iterates `entry.history.reverse()` —
`Array.prototype.reverse` reverses the STORED array in place, so the
returned register carries the entry with its history reversed. -/
def getAsOf (r : Register) (id : String) (entry : Entry)
    (options : GetOptions) : Except RegError (Option GetView) × Register :=
  match options.asOf with
  | some asOf =>
    if inEffect entry.effectiveFrom entry.effectiveTo asOf then
      (.ok (some (.current entry)), r)
    else
      let reversed := entry.history.reverse
      let r2 := { r with
        storage := mapSet r.storage id { entry with history := reversed } }
      match reversed.find? (fun h => inEffect h.effectiveFrom h.effectiveTo asOf) with
      | some h => (.ok (some (histView entry h)), r2)
      | none => (.ok none, r2)
  | none => (.ok (some (.current entry)), r)

/-- Model of `get`: `null` (not an error) for an unknown id; an explicit
`options.version` (truthy, i.e. nonzero, and different from the current
version) selects a history record or fails with `VersionNotFound`;
`options.asOf` resolves temporally via `getAsOf`. -/
def get (r : Register) (id : String) (options : GetOptions) :
    Except RegError (Option GetView) × Register :=
  match mapGet r.storage id with
  | none => (.ok none, r)
  | some entry =>
    match options.version with
    | some v =>
      if v ≠ 0 ∧ v ≠ entry.version then
        match entry.history.find? (fun h => h.version == v) with
        | some h => (.ok (some (histView entry h)), r)
        | none => (.error (.versionNotFound v id), r)
      else getAsOf r id entry options
    | none => getAsOf r id entry options

structure UpdateOptions where
  effectiveFrom : Option Int
  effectiveTo : Option Int
  metadata : List (String × Val)
  userId : Val
  changeReason : Val

def emptyUpdateOptions : UpdateOptions := ⟨none, none, [], .vUndefined, .vUndefined⟩

structure UpdateResult where
  id : String
  version : Nat
  previousVersion : Nat
  updatedAt : Int
  status : String

/-- The history record `update` pushes: the pre-update state with its
interval closed at `now`. -/
def supersededRecord (existing : Entry) (now : Int) : HistoryRecord :=
  { version := existing.version
    data := existing.data
    metadata := existing.metadata
    effectiveFrom := existing.effectiveFrom
    effectiveTo := some now
    archivedAt := now }

/-- The next-version entry object `update` builds. -/
def updatedEntry (r : Register) (existing : Entry) (document : Val)
    (options : UpdateOptions) (now : Int) : Entry :=
  { existing with
    version := existing.version + 1
    updatedAt := now
    effectiveFrom := options.effectiveFrom.getD now
    effectiveTo := options.effectiveTo
    data := jsOr (optGet document ("data")) document
    metadata := jsSpread
      (jsSpread existing.metadata
        [ (("schemaId"), jsOr (optGet document ("schemaId"))
            (lookupVal existing.metadata ("schemaId")))
        , (("schemaVersion"), jsOr (optGet document ("schemaVersion"))
            (lookupVal existing.metadata ("schemaVersion")))
        , (("extractionId"), optGet document ("extractionId"))
        , (("confidence"), optGet document ("confidence")) ])
      options.metadata
    citations := jsOr (optGet document ("citations")) existing.citations
    history :=
      if r.enableVersioning then existing.history ++ [supersededRecord existing now]
      else [] }

/-- Model of `update`: `await this.get(id)` with no options is exactly the storage
lookup (lemma `get_no_options`); an absent id raises `EntryNotFound`
before any state is touched. -/
def update (r : Register) (id : String) (document : Val)
    (options : UpdateOptions) (now : Int) :
    Except RegError UpdateResult × Register :=
  match mapGet r.storage id with
  | none => (.error (.entryNotFound id), r)
  | some existing =>
    let updated := updatedEntry r existing document options now
    let r1 := { r with storage := mapSet r.storage id updated }
    let r2 := { r1 with indexes := updateIndexes r1.indexes updated }
    let r3 :=
      if r.enableAuditLog then
        { r2 with auditLog := r2.auditLog ++
            [ { timestamp := now
                action := ("UPDATE")
                documentId := id
                details :=
                  [ (("previousVersion"), .vNum existing.version)
                  , (("newVersion"), .vNum (existing.version + 1))
                  , (("effectiveFrom"), .vNum updated.effectiveFrom)
                  , (("userId"), options.userId)
                  , (("changeReason"), options.changeReason) ] } ] }
      else r2
    (.ok { id := id
           version := existing.version + 1
           previousVersion := existing.version
           updatedAt := now
           status := ("updated") }, r3)

structure ArchiveOptions where
  reason : Val
  userId : Val

structure ArchiveResult where
  id : String
  status : String
  archivedAt : Int

/-- Model of `archive`: soft delete; flips `status` and stamps
`archivedAt`/`archiveReason` on the stored entry. -/
def archive (r : Register) (id : String) (options : ArchiveOptions)
    (now : Int) : Except RegError ArchiveResult × Register :=
  match mapGet r.storage id with
  | none => (.error (.entryNotFound id), r)
  | some entry =>
    let entry2 := { entry with
      status := ("archived")
      archivedAt := some now
      archiveReason := options.reason }
    let r1 := { r with storage := mapSet r.storage id entry2 }
    let r2 :=
      if r.enableAuditLog then
        { r1 with auditLog := r1.auditLog ++
            [ { timestamp := now
                action := ("ARCHIVE")
                documentId := id
                details :=
                  [ (("reason"), options.reason)
                  , (("userId"), options.userId) ] } ] }
      else r1
    (.ok { id := id, status := ("archived"), archivedAt := now }, r2)

/-- Model of `options.limit`: a number, or `Infinity` as used by `export`. -/
inductive LimitVal where
  | fin : Nat → LimitVal
  | inf : LimitVal

structure ListOptions where
  status : Option String
  category : Option Val
  tags : Option (List Val)
  effectiveAt : Option Int
  schemaId : Option Val
  sortBy : Option String
  sortDir : Option String
  offset : Option Nat
  limit : Option LimitVal
  includeData : Bool

def emptyListOptions : ListOptions :=
  ⟨none, none, none, none, none, none, none, none, none, false⟩

/-- The metadata-level projection returned by `list` when
`includeData` is false. -/
structure BriefEntry where
  id : String
  version : Nat
  status : String
  createdAt : Int
  updatedAt : Int
  effectiveFrom : Int
  effectiveTo : Option Int
  metadata : List (String × Val)

inductive ListedEntry where
  | full : Entry → ListedEntry
  | brief : BriefEntry → ListedEntry

structure ListResult where
  entries : List ListedEntry
  total : Nat
  offset : Nat
  limit : LimitVal
  hasMore : Bool

/-- Dynamic top-level field access `a[sortField]` on an entry, for the
fields an entry carries. -/
def entryField (e : Entry) (f : String) : Val :=
  if f == ("id") then .vStr e.id
  else if f == ("version") then .vNum e.version
  else if f == ("createdAt") then .vNum e.createdAt
  else if f == ("updatedAt") then .vNum e.updatedAt
  else if f == ("effectiveFrom") then .vNum e.effectiveFrom
  else if f == ("effectiveTo") then
    (match e.effectiveTo with
     | some t => .vNum t
     | none => .vNull)
  else if f == ("status") then .vStr e.status
  else if f == ("data") then e.data
  else if f == ("metadata") then .vObj e.metadata
  else if f == ("citations") then e.citations
  else .vUndefined

/-- Model of `a[sortField] || a.metadata?.[sortField]`. -/
def sortVal (e : Entry) (f : String) : Val :=
  jsOr (entryField e f) (lookupVal e.metadata f)

/-- Model of `list`: filter, sort, paginate, project. -/
def list (r : Register) (options : ListOptions) : ListResult :=
  let entries0 := r.storage.map Prod.snd
  let e1 := match options.status with
    | some s => entries0.filter fun e => e.status == s
    | none => entries0
  let e2 := match options.category with
    | some c => e1.filter fun e => strictEq (lookupVal e.metadata ("category")) c
    | none => e1
  let e3 := match options.tags with
    | some tags =>
      if tags.length ≠ 0 then
        e2.filter fun e =>
          tags.any fun tag =>
            match lookupVal e.metadata ("tags") with
            | .vArr ts => ts.any fun t => strictEq t tag
            | _ => false
      else e2
    | none => e2
  let e4 := match options.effectiveAt with
    | some d => e3.filter fun e => inEffect e.effectiveFrom e.effectiveTo d
    | none => e3
  let e5 := match options.schemaId with
    | some sid => e4.filter fun e => strictEq (lookupVal e.metadata ("schemaId")) sid
    | none => e4
  let sortField := options.sortBy.getD ("updatedAt")
  let sortDir := options.sortDir.getD ("desc")
  let sorted := sortB
    (fun a b =>
      if sortDir == ("asc") then !(jsGt (sortVal a sortField) (sortVal b sortField))
      else !(jsLt (sortVal a sortField) (sortVal b sortField)))
    e5
  let offset := options.offset.getD 0
  let limit := options.limit.getD (.fin 100)
  let total := sorted.length
  let page := match limit with
    | .inf => sorted.drop offset
    | .fin n => (sorted.drop offset).take n
  { entries := page.map fun e =>
      if options.includeData then .full e
      else .brief
        { id := e.id
          version := e.version
          status := e.status
          createdAt := e.createdAt
          updatedAt := e.updatedAt
          effectiveFrom := e.effectiveFrom
          effectiveTo := e.effectiveTo
          metadata := e.metadata }
    total := total
    offset := offset
    limit := limit
    hasMore :=
      match limit with
      | .inf => false
      | .fin n => offset + n < total }

/-!
### search
-/

/-- A query predicate: a literal, or an operator object with any of
`$eq`, `$contains`, `$gt`, `$lt`, `$regex` (the compiled RegExp's `test`
is an external boolean function on the stringified field value). -/
inductive Pred where
  | lit : Val → Pred
  | ops : (eq? : Option Val) → (contains? : Option String) →
      (gt? : Option Val) → (lt? : Option Val) →
      (regexTest? : Option (String → Bool)) → Pred

structure MatchResult where
  matched : Bool
  score : ℚ
  fields : List String

/-- One successful operator: set `matched`, add its weight, record the
field. -/
def bump (m : MatchResult) (w : ℚ) (f : String) : MatchResult :=
  { matched := true, score := m.score + w, fields := m.fields ++ [f] }

/-- Model of `_getNestedValue`: dot-path access. -/
def getNestedValue (obj : Val) (path : String) : Val :=
  (path.splitOn (".")).foldl (fun o p => optGet o p) obj

/-- The loop body of `_matchesQuery` for one query field: skip an
`undefined` field value, otherwise try every operator of the predicate
in source order, each successful one adding its fixed weight. -/
def matchStep (m : MatchResult) (data : Val) (fp : String × Pred) :
    MatchResult :=
  let fieldValue := getNestedValue data fp.1
  if isUndefined fieldValue then m
  else
    match fp.2 with
    | .lit v => if strictEq fieldValue v then bump m 1 fp.1 else m
    | .ops eq? contains? gt? lt? regexTest? =>
      let m1 := match eq? with
        | some v => if strictEq fieldValue v then bump m 1 fp.1 else m
        | none => m
      let m2 := match contains? with
        | some s =>
          if strContains (valToString fieldValue) s then bump m1 (8/10) fp.1
          else m1
        | none => m1
      let m3 := match gt? with
        | some v => if jsGt fieldValue v then bump m2 (7/10) fp.1 else m2
        | none => m2
      let m4 := match lt? with
        | some v => if jsLt fieldValue v then bump m3 (7/10) fp.1 else m3
        | none => m3
      match regexTest? with
      | some test =>
        if test (valToString fieldValue) then bump m4 (9/10) fp.1 else m4
      | none => m4

/-- Model of `_matchesQuery`: fixed weights 1 / 0.8 / 0.7 / 0.7 / 0.9 for
literal-or-`$eq` / `$contains` / `$gt` / `$lt` / `$regex`; a field whose
value is `undefined` is skipped. -/
def matchesQuery (data : Val) (query : List (String × Pred)) : MatchResult :=
  query.foldl (fun m fp => matchStep m data fp)
    { matched := false, score := 0, fields := [] }

/-- A search hit (`...entry` spread plus `matchScore`/`matchedFields`). -/
structure ScoredEntry where
  entry : Entry
  matchScore : ℚ
  matchedFields : List String

structure SearchResult where
  results : List ScoredEntry
  total : Nat

/-- Model of `search`: keep entries whose data matches, sort by score descending,
truncate to `options.limit || 50`. -/
def search (r : Register) (query : List (String × Pred))
    (limit : Option Nat) : SearchResult :=
  let results := (r.storage.map Prod.snd).filterMap fun e =>
    let m := matchesQuery e.data query
    if m.matched then
      some { entry := e, matchScore := m.score, matchedFields := m.fields }
    else none
  let sorted := sortB (fun a b => decide (b.matchScore ≤ a.matchScore)) results
  { results := sorted.take (limit.getD 50), total := results.length }

/-!
### export / import
-/

structure ExportResult where
  registerName : String
  schemaId : Val
  exportedAt : Int
  totalEntries : Nat
  entries : List ListedEntry
  auditLog : Option (List AuditEntry)

/-- Model of `export` (the name avoids the Lean keyword): `list` with the caller's
options plus `includeData: true, limit: Infinity`. -/
def exportRegister (r : Register) (options : ListOptions)
    (includeAuditLog : Bool) (now : Int) : ExportResult :=
  let l := list r { options with includeData := true, limit := some .inf }
  { registerName := r.name
    schemaId := r.schemaId
    exportedAt := now
    totalEntries := l.total
    entries := l.entries
    auditLog := if includeAuditLog then some r.auditLog else none }

def optIntToVal : Option Int → Val
  | some t => .vNum t
  | none => .vNull

def historyToVal (h : HistoryRecord) : Val :=
  .vObj
    [ (("version"), .vNum h.version)
    , (("data"), h.data)
    , (("metadata"), .vObj h.metadata)
    , (("effectiveFrom"), .vNum h.effectiveFrom)
    , (("effectiveTo"), optIntToVal h.effectiveTo)
    , (("archivedAt"), .vNum h.archivedAt) ]

/-- The entry object as a plain JS value (its property insertion order);
the `archivedAt`/`archiveReason` properties exist only once `archive`
has set them. -/
def entryToVal (e : Entry) : Val :=
  .vObj
    ([ (("id"), .vStr e.id)
     , (("version"), .vNum e.version)
     , (("createdAt"), .vNum e.createdAt)
     , (("updatedAt"), .vNum e.updatedAt)
     , (("effectiveFrom"), .vNum e.effectiveFrom)
     , (("effectiveTo"), optIntToVal e.effectiveTo)
     , (("status"), .vStr e.status)
     , (("data"), e.data)
     , (("metadata"), .vObj e.metadata)
     , (("citations"), e.citations)
     , (("history"), .vArr (e.history.map historyToVal)) ] ++
     (match e.archivedAt with
      | some t => [(("archivedAt"), .vNum t), (("archiveReason"), e.archiveReason)]
      | none => []))

def briefToVal (b : BriefEntry) : Val :=
  .vObj
    [ (("id"), .vStr b.id)
    , (("version"), .vNum b.version)
    , (("status"), .vStr b.status)
    , (("createdAt"), .vNum b.createdAt)
    , (("updatedAt"), .vNum b.updatedAt)
    , (("effectiveFrom"), .vNum b.effectiveFrom)
    , (("effectiveTo"), optIntToVal b.effectiveTo)
    , (("metadata"), .vObj b.metadata) ]

def itemId : ListedEntry → String
  | .full e => e.id
  | .brief b => b.id

def itemData : ListedEntry → Val
  | .full e => e.data
  | .brief _ => .vUndefined

def itemEffectiveFrom : ListedEntry → Option Int
  | .full e => some e.effectiveFrom
  | .brief b => some b.effectiveFrom

def itemEffectiveTo : ListedEntry → Option Int
  | .full e => e.effectiveTo
  | .brief b => b.effectiveTo

def itemStatus : ListedEntry → Option String
  | .full e => some e.status
  | .brief b => some b.status

def itemMetadata : ListedEntry → List (String × Val)
  | .full e => e.metadata
  | .brief b => b.metadata

def listedToVal : ListedEntry → Val
  | .full e => entryToVal e
  | .brief b => briefToVal b

structure ImportResult where
  imported : Nat
  skipped : Nat
  errors : List String

/-- The `add` options `import` supplies for one item: the item's own id
and its preserved `effectiveFrom`/`effectiveTo`/`status`/`metadata`,
with `source: 'import'`. -/
def importOpts (item : ListedEntry) : AddOptions :=
  { id := some (itemId item)
    effectiveFrom := itemEffectiveFrom item
    effectiveTo := itemEffectiveTo item
    status := itemStatus item
    source := .vStr ("import")
    tags := .vUndefined
    category := .vUndefined
    metadata := itemMetadata item
    userId := .vUndefined }

/-- One iteration of `import`'s loop: skip a present id when
`skipExisting` (the `await this.get(entry.id)` with no options is the
storage lookup), otherwise re-`add` the item. -/
def importStep (skipExisting : Bool) (now : Int)
    (acc : ImportResult × Register) (item : ListedEntry) :
    ImportResult × Register :=
  if skipExisting ∧ (mapGet acc.2.storage (itemId item)).isSome then
    ({ acc.1 with skipped := acc.1.skipped + 1 }, acc.2)
  else
    ({ acc.1 with imported := acc.1.imported + 1 },
     (add acc.2 (jsOr (itemData item) (listedToVal item)) (importOpts item)
        (itemId item) now).2)

/-- Model of `import` (the name avoids the Lean keyword) over the entry-shaped
items of an export payload.  With `Map` storage the per-item `add` never
throws, so the `errors` list stays empty; `add` performs no existence
check, so without `skipExisting` a present id is overwritten. -/
def importRegister (r : Register) (entries : List ListedEntry)
    (skipExisting : Bool) (now : Int) : ImportResult × Register :=
  entries.foldl (importStep skipExisting now)
    ({ imported := 0, skipped := 0, errors := [] }, r)

/-!
## Shared lemmas
-/

/-- Model of `get` with no options is exactly the storage lookup; in particular it
never touches the register, which justifies embedding the internal
`await this.get(id)` calls of `update`/`archive`/`import` as `mapGet`. -/
lemma get_no_options (r : Register) (id : String) :
    get r id emptyGetOptions = (.ok ((mapGet r.storage id).map GetView.current), r) := by
  cases h : mapGet r.storage id <;> simp [get, emptyGetOptions, getAsOf, h]

lemma find?_mapSetFun_self (m : List (String × α)) (k : String) (v : α) :
    ((m.map fun p => if p.1 == k then (k, v) else p).find? (fun p => p.1 == k)) =
      if m.any (fun p => p.1 == k) then some (k, v) else none := by
  induction m with
  | nil => simp
  | cons q qs ih =>
    rw [List.map_cons, List.any_cons]
    by_cases hq : (q.1 == k) = true
    · simp [List.find?_cons, hq]
    · have hqf : (q.1 == k) = false := Bool.eq_false_iff.mpr hq
      simp only [hqf, Bool.false_eq_true, if_false, List.find?_cons, Bool.false_or]
      exact ih

lemma find?_mapSetFun_ne (m : List (String × α)) (k k2 : String) (v : α)
    (h : k ≠ k2) :
    ((m.map fun p => if p.1 == k then (k, v) else p).find? (fun p => p.1 == k2)) =
      m.find? (fun p => p.1 == k2) := by
  induction m with
  | nil => simp
  | cons q qs ih =>
    rw [List.map_cons]
    by_cases hq2 : (q.1 == k2) = true
    · have hqk : ¬ (q.1 == k) = true := by
        simp only [beq_iff_eq] at hq2 ⊢
        rw [hq2]
        exact fun hh => h hh.symm
      simp only [if_neg hqk, List.find?_cons, hq2]
    · have hq2f : (q.1 == k2) = false := Bool.eq_false_iff.mpr hq2
      by_cases hqk : (q.1 == k) = true
      · have hkk2 : ((k, v).1 == k2) = false := by simpa using h
        simp only [if_pos hqk, List.find?_cons, hkk2, hq2f]
        exact ih
      · simp only [if_neg hqk, List.find?_cons, hq2f]
        exact ih

lemma mapGet_mapSet_self (m : List (String × α)) (k : String) (v : α) :
    mapGet (mapSet m k v) k = some v := by
  unfold mapSet mapGet
  by_cases h : m.any (fun p => p.1 == k)
  · rw [if_pos h, find?_mapSetFun_self, if_pos h]
    rfl
  · rw [if_neg h, List.find?_append]
    have hnone : m.find? (fun p => p.1 == k) = none := by
      rw [List.find?_eq_none]
      intro p hp hpk
      exact h (List.any_eq_true.mpr ⟨p, hp, hpk⟩)
    simp [hnone]

lemma mapGet_mapSet_ne (m : List (String × α)) (k k2 : String) (v : α)
    (h : k ≠ k2) : mapGet (mapSet m k v) k2 = mapGet m k2 := by
  unfold mapSet mapGet
  by_cases hany : m.any (fun p => p.1 == k)
  · rw [if_pos hany, find?_mapSetFun_ne m k k2 v h]
  · rw [if_neg hany, List.find?_append]
    cases hf : m.find? (fun p => p.1 == k2) with
    | some p => simp
    | none =>
      have hkv : ¬ ((k, v).1 == k2) = true := by simpa using h
      simp [List.find?_cons, Bool.eq_false_iff.mpr hkv]

lemma insertSorted_perm (le : α → α → Bool) (x : α) (l : List α) :
    List.Perm (insertSorted le x l) (x :: l) := by
  induction l with
  | nil => exact List.Perm.refl _
  | cons y ys ih =>
    rw [insertSorted]
    by_cases h : le x y
    · rw [if_pos h]
    · rw [if_neg h]
      exact (ih.cons y).trans (List.Perm.swap x y ys)

lemma sortB_perm (le : α → α → Bool) (l : List α) : List.Perm (sortB le l) l := by
  induction l with
  | nil => exact List.Perm.refl _
  | cons x xs ih =>
    rw [sortB, List.foldr_cons]
    exact (insertSorted_perm le x _).trans (ih.cons x)

lemma insertSorted_pairwise (le : α → α → Bool)
    (htot : ∀ a b, le a b = true ∨ le b a = true)
    (htrans : ∀ a b c, le a b = true → le b c = true → le a c = true)
    (x : α) {l : List α} (h : l.Pairwise (fun a b => le a b = true)) :
    (insertSorted le x l).Pairwise (fun a b => le a b = true) := by
  induction l with
  | nil => simp [insertSorted]
  | cons y ys ih =>
    rw [insertSorted]
    rcases List.pairwise_cons.mp h with ⟨hy, hys⟩
    by_cases hxy : le x y
    · rw [if_pos hxy]
      refine List.pairwise_cons.mpr ⟨?_, h⟩
      intro z hz
      rcases List.mem_cons.mp hz with h1 | h2
      · exact h1 ▸ hxy
      · exact htrans x y z hxy (hy z h2)
    · rw [if_neg hxy]
      refine List.pairwise_cons.mpr ⟨?_, ih hys⟩
      intro z hz
      rcases List.mem_cons.mp ((insertSorted_perm le x ys).mem_iff.mp hz) with h1 | h2
      · rcases htot x y with ht | ht
        · exact absurd ht hxy
        · exact h1 ▸ ht
      · exact hy z h2

lemma sortB_pairwise (le : α → α → Bool)
    (htot : ∀ a b, le a b = true ∨ le b a = true)
    (htrans : ∀ a b c, le a b = true → le b c = true → le a c = true)
    (l : List α) : (sortB le l).Pairwise (fun a b => le a b = true) := by
  induction l with
  | nil => simp [sortB]
  | cons x xs ih =>
    rw [sortB, List.foldr_cons]
    exact insertSorted_pairwise le htot htrans x ih

lemma add_snd_storage (r : Register) (document : Val) (options : AddOptions)
    (genId : String) (now : Int) :
    ((add r document options genId now).2).storage =
      mapSet r.storage (options.id.getD genId)
        (freshEntry r document options (options.id.getD genId) now) := by
  by_cases h : r.enableAuditLog <;> simp [add, h]

lemma add_snd_enableVersioning (r : Register) (document : Val)
    (options : AddOptions) (genId : String) (now : Int) :
    ((add r document options genId now).2).enableVersioning =
      r.enableVersioning := by
  by_cases h : r.enableAuditLog <;> simp [add, h]

lemma add_fst (r : Register) (document : Val) (options : AddOptions)
    (genId : String) (now : Int) :
    (add r document options genId now).1 =
      { id := options.id.getD genId
        version := 1
        createdAt := now
        status := ("created") } := rfl

lemma update_none {r : Register} {id : String} (document : Val)
    (options : UpdateOptions) (now : Int)
    (h : mapGet r.storage id = none) :
    update r id document options now = (.error (.entryNotFound id), r) := by
  simp [update, h]

lemma update_some_fst {r : Register} {id : String} {e : Entry}
    (document : Val) (options : UpdateOptions) (now : Int)
    (h : mapGet r.storage id = some e) :
    (update r id document options now).1 =
      .ok { id := id
            version := e.version + 1
            previousVersion := e.version
            updatedAt := now
            status := ("updated") } := by
  by_cases ha : r.enableAuditLog <;> simp [update, h, ha]

lemma update_some_storage {r : Register} {id : String} {e : Entry}
    (document : Val) (options : UpdateOptions) (now : Int)
    (h : mapGet r.storage id = some e) :
    ((update r id document options now).2).storage =
      mapSet r.storage id (updatedEntry r e document options now) := by
  by_cases ha : r.enableAuditLog <;> simp [update, h, ha]

lemma update_snd_enableVersioning (r : Register) (id : String)
    (document : Val) (options : UpdateOptions) (now : Int) :
    ((update r id document options now).2).enableVersioning =
      r.enableVersioning := by
  cases h : mapGet r.storage id with
  | none => simp [update, h]
  | some e => by_cases ha : r.enableAuditLog <;> simp [update, h, ha]

lemma archive_none {r : Register} {id : String} (options : ArchiveOptions)
    (now : Int) (h : mapGet r.storage id = none) :
    archive r id options now = (.error (.entryNotFound id), r) := by
  simp [archive, h]

lemma areEqual_self (v : Val) : areEqual v v = true := by
  cases v <;> simp [areEqual, strictEq, typeofVal]

lemma compareValues_self (deep : Bool) (v : Val) (f : String) :
    compareValues deep v v f = none := by
  rw [compareValues.eq_def]
  simp only [Bool.and_not_self, Bool.not_and_self, areEqual_self,
    Bool.false_eq_true, if_false, if_true]

/-- C9: `compare(A,A)` reports `identical = true` and an empty
`differences` list, for any comparator configuration. -/
theorem c9_compare_self_identical (ignoreFields : List String) (deep : Bool)
    (a : Val) :
    (compareData ignoreFields deep a a).identical = true ∧
    (compareData ignoreFields deep a a).differences = [] := by
  have hnil : ∀ l : List String,
      (l.filterMap fun f =>
        if ignoreFields.contains f then none
        else compareValues deep (optGet a f) (optGet a f) f) = [] := by
    intro l
    apply List.filterMap_eq_nil_iff.mpr
    intro f _
    by_cases h : ignoreFields.contains f
    · rw [if_pos h]
    · rw [if_neg h, compareValues_self]
  constructor
  · simp only [compareData, hnil]
    rfl
  · simp only [compareData, hnil]

/-- Modelled from the spec: the half-open overlap test of §4.4 —
`[f1,t1)` and `[f2,t2)` (a `null` bound meaning `+∞`) overlap iff
`f1 < t2 AND f2 < t1`.  Used only to contrast with what
`findConflicts` computes. -/
def specHalfOpenOverlap (f1 : Int) (t1 : Option Int) (f2 : Int)
    (t2 : Option Int) : Bool :=
  (match t2 with
   | none => true
   | some t => f1 < t) &&
  (match t1 with
   | none => true
   | some t => f2 < t)

/-- C1 (refuting the claim on the code): two documents with disjoint,
sequential effective intervals `[0,100)` and `[100,∞)` and different
values for `price` ARE flagged by `findConflicts`: the grouping pass
drops `effectiveTo`, so the overlap helper widens every interval to the
year-9999 sentinel, and its comparison is the closed `<=`, not the
spec's half-open `<` — while the spec's own overlap test returns false
for these intervals. -/
theorem c1_sequential_intervals_flagged :
    (findConflicts none
      [ { id := .vStr ("a"), version := .vNum 1
          data := .vObj [(("price"), .vNum 100)]
          effectiveFrom := some 0, effectiveTo := some 100 }
      , { id := .vStr ("b"), version := .vNum 1
          data := .vObj [(("price"), .vNum 150)]
          effectiveFrom := some 100, effectiveTo := none } ]).hasConflicts
      = true ∧
    (findConflicts none
      [ { id := .vStr ("a"), version := .vNum 1
          data := .vObj [(("price"), .vNum 100)]
          effectiveFrom := some 0, effectiveTo := some 100 }
      , { id := .vStr ("b"), version := .vNum 1
          data := .vObj [(("price"), .vNum 150)]
          effectiveFrom := some 100, effectiveTo := none } ]).conflicts.map
        Conflict.cfield = [("price")] ∧
    specHalfOpenOverlap 0 (some 100) 100 none = false := by
  refine ⟨rfl, rfl, by decide⟩

/-- C4 (refuting the claim on the code): `get(id, {asOf})`, a read
operation, reorders the stored history.  On an entry with history
versions `[1, 2]` (an `add` followed by two `update`s), a single
temporal lookup whose `asOf` precedes the current version's
`effectiveFrom` leaves the stored history as `[2, 1]`: the source
iterates `entry.history.reverse()`, and `Array.prototype.reverse`
mutates the stored array in place. -/
theorem c4_get_asOf_reverses_history :
    (let r :=
      (update
        (update
          (add emptyRegister (.vObj [(("amount"), .vNum 1)])
            { emptyAddOptions with id := some ("a"), effectiveFrom := some 0 }
            ("g") 0).2
          ("a") (.vObj [(("amount"), .vNum 2)])
          { emptyUpdateOptions with effectiveFrom := some 10 } 10).2
        ("a") (.vObj [(("amount"), .vNum 3)])
        { emptyUpdateOptions with effectiveFrom := some 20 } 20).2
     ((mapGet r.storage ("a")).map fun e => e.history.map fun h => h.version)
        = some [1, 2] ∧
     ((mapGet (get r ("a") { version := none, asOf := some 5 }).2.storage
          ("a")).map fun e => e.history.map fun h => h.version)
        = some [2, 1]) := by
  exact ⟨rfl, rfl⟩

/-- C7 (refuting the claim on the code): `get` on an id absent from
storage returns `null` (a successful not-found result) — it does NOT
fail with an `EntryNotFound` error as the claim states; only `update`
and `archive` throw. -/
theorem c7_get_missing_returns_null :
    (get emptyRegister ("missing") emptyGetOptions).1 = .ok none ∧
    ∀ err : RegError,
      (get emptyRegister ("missing") emptyGetOptions).1 ≠ .error err := by
  refine ⟨rfl, ?_⟩
  intro err h
  exact Except.noConfusion h

/-- C7 as amended: for an id absent from storage, `update` and `archive`
fail with `EntryNotFound` and leave the register (storage, indexes,
audit log) unchanged, while `get` returns `null` without error; a
`get(id, {version: v})` for a truthy `v` matching neither the current
version nor any history record fails with `VersionNotFound`, also
leaving the register unchanged. -/
theorem c7_register_errors (r : Register) (id : String) :
    (mapGet r.storage id = none →
      get r id emptyGetOptions = (.ok none, r) ∧
      (∀ document options now,
        update r id document options now = (.error (.entryNotFound id), r)) ∧
      (∀ options now,
        archive r id options now = (.error (.entryNotFound id), r))) ∧
    (∀ e v, mapGet r.storage id = some e → v ≠ 0 → v ≠ e.version →
      (∀ h ∈ e.history, h.version ≠ v) →
      get r id { version := some v, asOf := none } =
        (.error (.versionNotFound v id), r)) := by
  constructor
  · intro h
    refine ⟨?_, ?_, ?_⟩
    · rw [get_no_options, h]
      rfl
    · intro document options now
      exact update_none document options now h
    · intro options now
      exact archive_none options now h
  · intro e v he hv0 hvv hhist
    have hfind : e.history.find? (fun h => h.version == v) = none := by
      rw [List.find?_eq_none]
      intro x hx
      simpa using hhist x hx
    simp [get, he, hv0, hvv, hfind]

def c7Doc : Val := .vObj [(("amount"), .vNum 1)]

def c7Opts : AddOptions := { emptyAddOptions with id := some ("a") }

def c7Reg : Register := (add emptyRegister c7Doc c7Opts ("g") 0).2

def c7Entry : Entry := freshEntry emptyRegister c7Doc c7Opts ("a") 0

theorem c7_register_errors_witness :
    update c7Reg ("b") .vNull emptyUpdateOptions 0 =
      (.error (.entryNotFound ("b")), c7Reg) ∧
    get c7Reg ("a") { version := some 5, asOf := none } =
      (.error (.versionNotFound 5 ("a")), c7Reg) := by
  refine ⟨((c7_register_errors c7Reg ("b")).1 rfl).2.1 .vNull emptyUpdateOptions 0,
    (c7_register_errors c7Reg ("a")).2 c7Entry 5 rfl (by decide) (by decide) ?_⟩
  intro x hx
  exact absurd hx (List.not_mem_nil x)

/-- C10: `add` performs no existence check — on a register already
holding `id`, `add(document, {id})` succeeds (result status `created`)
and silently replaces the stored entry with a fresh version-1 entry with
empty history; consequently `import` without `skipExisting` overwrites an
existing entry (reporting it imported, with no error) rather than
erroring. -/
theorem c10_add_overwrites (r : Register) (id : String) (e : Entry)
    (document : Val) (options : AddOptions) (genId : String) (now : Int)
    (item : Entry)
    (hpresent : mapGet r.storage id = some e)
    (hopt : options.id = some id)
    (hitem : item.id = id) :
    (∃ e2, mapGet ((add r document options genId now).2).storage id = some e2 ∧
      e2.version = 1 ∧ e2.history = [] ∧
      (add r document options genId now).1.status = ("created")) ∧
    ((importRegister r [.full item] false now).1.errors = [] ∧
     (importRegister r [.full item] false now).1.imported = 1 ∧
     ∃ e3, mapGet ((importRegister r [.full item] false now).2).storage id =
        some e3 ∧ e3.version = 1 ∧ e3.history = []) := by
  subst hitem
  constructor
  · have hs := add_snd_storage r document options genId now
    rw [hopt] at hs
    refine ⟨freshEntry r document options item.id now, ?_, rfl, rfl, rfl⟩
    rw [hs]
    exact mapGet_mapSet_self _ _ _
  · have himp : importRegister r [.full item] false now =
        ({ imported := 1, skipped := 0, errors := [] },
         (add r (jsOr (itemData (.full item)) (listedToVal (.full item)))
            { id := some (itemId (.full item))
              effectiveFrom := itemEffectiveFrom (.full item)
              effectiveTo := itemEffectiveTo (.full item)
              status := itemStatus (.full item)
              source := .vStr ("import")
              tags := .vUndefined
              category := .vUndefined
              metadata := itemMetadata (.full item)
              userId := .vUndefined }
            (itemId (.full item)) now).2) := by
      simp [importRegister, importStep, importOpts]
    rw [himp]
    refine ⟨rfl, rfl,
      ⟨freshEntry r
        (jsOr (itemData (.full item)) (listedToVal (.full item)))
        { id := some (itemId (.full item))
          effectiveFrom := itemEffectiveFrom (.full item)
          effectiveTo := itemEffectiveTo (.full item)
          status := itemStatus (.full item)
          source := .vStr ("import")
          tags := .vUndefined
          category := .vUndefined
          metadata := itemMetadata (.full item)
          userId := .vUndefined }
        (itemId (.full item)) now, ?_, rfl, rfl⟩⟩
    rw [add_snd_storage]
    exact mapGet_mapSet_self _ _ _

def c10Doc : Val := .vObj [(("amount"), .vNum 1)]

def c10Opts : AddOptions := { emptyAddOptions with id := some ("a") }

def c10Reg : Register := (add emptyRegister c10Doc c10Opts ("g") 0).2

def c10Entry : Entry := freshEntry emptyRegister c10Doc c10Opts ("a") 0

theorem c10_add_overwrites_witness :
    mapGet c10Reg.storage ("a") = some c10Entry ∧
    (importRegister c10Reg [.full c10Entry] false 5).1.imported = 1 := by
  refine ⟨rfl, ?_⟩
  exact (c10_add_overwrites c10Reg ("a") c10Entry .vNull c10Opts ("g") 5
    c10Entry rfl rfl rfl).2.2.1

/-- Modelled from the spec (§4.2, step 2): "scan `history` from
most-recently-appended to oldest; return the first HistoryRecord whose
interval contains `asOf`" — i.e. the LAST record in append order whose
interval contains the instant. -/
def lastContaining (t : Int) : List HistoryRecord → Option HistoryRecord
  | [] => none
  | h :: hs =>
    match lastContaining t hs with
    | some h2 => some h2
    | none =>
      if inEffect h.effectiveFrom h.effectiveTo t then some h else none

lemma find?_reverse_eq_lastContaining (t : Int) (l : List HistoryRecord) :
    l.reverse.find? (fun h => inEffect h.effectiveFrom h.effectiveTo t) =
      lastContaining t l := by
  induction l with
  | nil => rfl
  | cons h hs ih =>
    rw [List.reverse_cons, List.find?_append, ih, lastContaining]
    cases lastContaining t hs with
    | some h2 => rfl
    | none =>
      by_cases hc : inEffect h.effectiveFrom h.effectiveTo t
      · simp [List.find?_cons, hc]
      · simp [List.find?_cons, Bool.eq_false_iff.mpr hc]

/-- C2: on a stored entry, `get(id, {asOf: t})` returns the current
version when `t` lies in its half-open interval; otherwise it returns
the history record that was appended most recently among those whose
interval contains `t` (reshaped with `isHistoric`); and when no
version's interval contains `t` — including `t` before creation — the
result is `null` (`Except.ok none`), not an error. -/
theorem c2_get_asOf (r : Register) (id : String) (e : Entry) (t : Int)
    (he : mapGet r.storage id = some e) :
    (get r id { version := none, asOf := some t }).1 =
      (if inEffect e.effectiveFrom e.effectiveTo t then
        .ok (some (.current e))
      else
        .ok ((lastContaining t e.history).map (histView e))) := by
  simp only [get, he, getAsOf]
  by_cases hc : inEffect e.effectiveFrom e.effectiveTo t
  · simp [hc]
  · simp only [hc, Bool.false_eq_true, if_false,
      find?_reverse_eq_lastContaining]
    cases lastContaining t e.history with
    | some h2 => rfl
    | none => rfl

def c2Reg : Register :=
  (update
    (add emptyRegister (.vObj [(("amount"), .vNum 100)])
      { emptyAddOptions with id := some ("a"), effectiveFrom := some 0 }
      ("g") 0).2
    ("a") (.vObj [(("amount"), .vNum 150)])
    { emptyUpdateOptions with effectiveFrom := some 100 } 100).2

def c2Entry : Entry :=
  updatedEntry (add emptyRegister (.vObj [(("amount"), .vNum 100)])
      { emptyAddOptions with id := some ("a"), effectiveFrom := some 0 }
      ("g") 0).2
    (freshEntry emptyRegister (.vObj [(("amount"), .vNum 100)])
      { emptyAddOptions with id := some ("a"), effectiveFrom := some 0 }
      ("a") 0)
    (.vObj [(("amount"), .vNum 150)])
    { emptyUpdateOptions with effectiveFrom := some 100 } 100

theorem c2_get_asOf_witness :
    (get c2Reg ("a") { version := none, asOf := some 50 }).1 =
      .ok ((lastContaining 50 c2Entry.history).map (histView c2Entry)) ∧
    (lastContaining 50 c2Entry.history).map (fun h => h.data) =
      some (.vObj [(("amount"), .vNum 100)]) ∧
    (get c2Reg ("a") { version := none, asOf := some (-7) }).1 = .ok none := by
  refine ⟨?_, rfl, ?_⟩
  · have h := c2_get_asOf c2Reg ("a") c2Entry 50 rfl
    rwa [if_neg (by decide)] at h
  · have h := c2_get_asOf c2Reg ("a") c2Entry (-7) rfl
    rwa [if_neg (by decide)] at h

/-- Apply a sequence of `update` calls (document and clock reading per
step) to one id. -/
def runUpdates (id : String) : Register → List (Val × Int) → Register
  | r, [] => r
  | r, (d, t) :: rest => runUpdates id (update r id d emptyUpdateOptions t).2 rest

lemma runUpdates_invariant (id : String) (updates : List (Val × Int)) :
    ∀ (r : Register) (e : Entry),
      mapGet r.storage id = some e →
      r.enableVersioning = true →
      ∃ e2, mapGet (runUpdates id r updates).storage id = some e2 ∧
        e2.version = e.version + updates.length ∧
        e2.history.map (fun h => h.version) =
          e.history.map (fun h => h.version) ++
            List.range' e.version updates.length := by
  induction updates with
  | nil =>
    intro r e he hv
    exact ⟨e, he, by simp [runUpdates], by simp [runUpdates]⟩
  | cons ut rest ih =>
    intro r e he hv
    obtain ⟨d, t⟩ := ut
    have hstore := update_some_storage d emptyUpdateOptions t he
    have he1 : mapGet ((update r id d emptyUpdateOptions t).2).storage id =
        some (updatedEntry r e d emptyUpdateOptions t) := by
      rw [hstore]
      exact mapGet_mapSet_self _ _ _
    have hv1 : ((update r id d emptyUpdateOptions t).2).enableVersioning = true := by
      rw [update_snd_enableVersioning]
      exact hv
    obtain ⟨e2, h1, h2, h3⟩ := ih _ _ he1 hv1
    refine ⟨e2, ?_, ?_, ?_⟩
    · rw [runUpdates]
      exact h1
    · rw [h2]
      have hver : (updatedEntry r e d emptyUpdateOptions t).version =
          e.version + 1 := rfl
      rw [hver, List.length_cons]
      omega
    · rw [h3]
      have hh : (updatedEntry r e d emptyUpdateOptions t).history.map
          (fun h => h.version) =
          e.history.map (fun h => h.version) ++ [e.version] := by
        simp [updatedEntry, hv, supersededRecord]
      have hver : (updatedEntry r e d emptyUpdateOptions t).version =
          e.version + 1 := rfl
      rw [hh, hver, List.append_assoc, List.length_cons]
      congr 1

/-- C3: starting from a default-options register, one `add` followed by
N `update`s of the same id yields an entry with `version = N + 1`
(each update increments by exactly 1), whose history records carry
versions exactly `1..N` in order (so current + history hold exactly
`1..N+1` with no gaps), with `history.length = version - 1`.  Applied to
every prefix of the update list, this gives the invariant at every
point. -/
theorem c3_version_invariant (document : Val) (options : AddOptions)
    (genId : String) (now : Int) (updates : List (Val × Int)) :
    ∃ e, mapGet (runUpdates (options.id.getD genId)
        ((add emptyRegister document options genId now).2) updates).storage
        (options.id.getD genId) = some e ∧
      e.version = updates.length + 1 ∧
      e.history.length = e.version - 1 ∧
      e.history.map (fun h => h.version) = List.range' 1 updates.length := by
  have hadd : mapGet ((add emptyRegister document options genId now).2).storage
      (options.id.getD genId) =
      some (freshEntry emptyRegister document options (options.id.getD genId) now) := by
    rw [add_snd_storage]
    exact mapGet_mapSet_self _ _ _
  have hv : ((add emptyRegister document options genId now).2).enableVersioning
      = true := by
    rw [add_snd_enableVersioning]
    rfl
  obtain ⟨e2, h1, h2, h3⟩ :=
    runUpdates_invariant (options.id.getD genId) updates _ _ hadd hv
  have hfv : (freshEntry emptyRegister document options
      (options.id.getD genId) now).version = 1 := rfl
  have hfh : (freshEntry emptyRegister document options
      (options.id.getD genId) now).history = [] := rfl
  rw [hfv] at h2
  rw [hfh] at h3
  simp only [List.map_nil, List.nil_append] at h3
  refine ⟨e2, h1, by omega, ?_, h3⟩
  have := congrArg List.length h3
  simp only [List.length_map, List.length_range'] at this
  omega

/-- Modelled from the spec (§4.1 search): the fixed weight a single
predicate contributes for a field value — summing, over the predicate's
operators that match, 1.0 for a literal or `$eq` match, 0.9 for
`$regex`, 0.8 for `$contains`, 0.7 for `$gt` or `$lt`. -/
def specPredWeight (fieldValue : Val) : Pred → ℚ
  | .lit v => if strictEq fieldValue v then 1 else 0
  | .ops eq? contains? gt? lt? regexTest? =>
    (match eq? with
     | some v => if strictEq fieldValue v then 1 else 0
     | none => 0) +
    (match contains? with
     | some s => if strContains (valToString fieldValue) s then 8/10 else 0
     | none => 0) +
    (match gt? with
     | some v => if jsGt fieldValue v then 7/10 else 0
     | none => 0) +
    (match lt? with
     | some v => if jsLt fieldValue v then 7/10 else 0
     | none => 0) +
    (match regexTest? with
     | some test => if test (valToString fieldValue) then 9/10 else 0
     | none => 0)

/-- Modelled from the spec: whether any operator of a predicate matches
the field value. -/
def specPredMatches (fieldValue : Val) : Pred → Bool
  | .lit v => strictEq fieldValue v
  | .ops eq? contains? gt? lt? regexTest? =>
    (match eq? with
     | some v => strictEq fieldValue v
     | none => false) ||
    (match contains? with
     | some s => strContains (valToString fieldValue) s
     | none => false) ||
    (match gt? with
     | some v => jsGt fieldValue v
     | none => false) ||
    (match lt? with
     | some v => jsLt fieldValue v
     | none => false) ||
    (match regexTest? with
     | some test => test (valToString fieldValue)
     | none => false)

/-- Modelled from the spec: the match score of an entry's data — the sum
of the matching predicates' weights (an `undefined` field matches no
predicate). -/
def specScore (data : Val) (query : List (String × Pred)) : ℚ :=
  (query.map fun fp =>
    let fv := getNestedValue data fp.1
    if isUndefined fv then 0 else specPredWeight fv fp.2).sum

/-- Modelled from the spec: an entry matches when at least one predicate
matches. -/
def specMatched (data : Val) (query : List (String × Pred)) : Bool :=
  query.any fun fp =>
    let fv := getNestedValue data fp.1
    !isUndefined fv && specPredMatches fv fp.2

set_option maxHeartbeats 1000000 in
lemma matchStep_spec (data : Val) (m : MatchResult) (fp : String × Pred) :
    (matchStep m data fp).score = m.score +
      (if isUndefined (getNestedValue data fp.1) then 0
       else specPredWeight (getNestedValue data fp.1) fp.2) ∧
    (matchStep m data fp).matched =
      (m.matched || (!isUndefined (getNestedValue data fp.1) &&
        specPredMatches (getNestedValue data fp.1) fp.2)) := by
  by_cases hu : isUndefined (getNestedValue data fp.1)
  · simp [matchStep, hu]
  · obtain ⟨f, p⟩ := fp
    cases p with
    | lit v =>
      by_cases hs : strictEq (getNestedValue data f) v <;>
        simp [matchStep, hu, hs, bump, specPredWeight, specPredMatches]
    | ops eq? contains? gt? lt? regexTest? =>
      rcases eq? with _ | ev <;> rcases contains? with _ | cv <;>
        rcases gt? with _ | gv <;> rcases lt? with _ | lv <;>
        rcases regexTest? with _ | rv <;>
        simp only [matchStep, hu, Bool.false_eq_true, if_false,
          specPredWeight, specPredMatches, bump] <;>
        first
        | (split_ifs <;> simp_all [bump] <;> ring_nf)
        | (constructor <;> simp)

lemma matchesQuery_spec (data : Val) (query : List (String × Pred)) :
    (matchesQuery data query).score = specScore data query ∧
    (matchesQuery data query).matched = specMatched data query := by
  suffices h : ∀ m0 : MatchResult,
      ((query.foldl (fun m fp => matchStep m data fp) m0).score =
        m0.score + specScore data query) ∧
      ((query.foldl (fun m fp => matchStep m data fp) m0).matched =
        (m0.matched || specMatched data query)) by
    have h2 := h { matched := false, score := 0, fields := [] }
    rw [matchesQuery]
    refine ⟨?_, ?_⟩
    · rw [h2.1]
      simp
    · rw [h2.2]
      simp
  induction query with
  | nil =>
    intro m0
    simp [specScore, specMatched]
  | cons fp rest ih =>
    intro m0
    rw [List.foldl_cons]
    obtain ⟨hs, hm⟩ := matchStep_spec data m0 fp
    obtain ⟨hs2, hm2⟩ := ih (matchStep m0 data fp)
    constructor
    · rw [hs2, hs]
      have hcons : specScore data (fp :: rest) =
          (if isUndefined (getNestedValue data fp.1) then 0
           else specPredWeight (getNestedValue data fp.1) fp.2) +
          specScore data rest := by
        simp [specScore]
      rw [hcons]
      ring
    · rw [hm2, hm]
      have hcons : specMatched data (fp :: rest) =
          ((!isUndefined (getNestedValue data fp.1) &&
            specPredMatches (getNestedValue data fp.1) fp.2) ||
           specMatched data rest) := by
        simp [specMatched]
      rw [hcons, Bool.or_assoc]

/-- C8: every returned search result's `matchScore` equals the
spec-level score (the sum of the fixed weights 1 / 0.9 / 0.8 / 0.7 over
the query predicates matching the entry's data), every returned entry
matches at least one predicate (entries matching zero predicates are
absent), and the result list is ordered descending by score. -/
theorem c8_search_scoring (r : Register) (query : List (String × Pred))
    (limit : Option Nat) :
    ((search r query limit).results.all fun se =>
      (se.matchScore == specScore se.entry.data query) &&
      specMatched se.entry.data query) = true ∧
    (search r query limit).results.Pairwise
      (fun a b => b.matchScore ≤ a.matchScore) := by
  have hresults : (search r query limit).results =
      (sortB (fun a b => decide (b.matchScore ≤ a.matchScore))
        ((r.storage.map Prod.snd).filterMap fun e =>
          let m := matchesQuery e.data query
          if m.matched then
            some { entry := e, matchScore := m.score, matchedFields := m.fields }
          else none)).take (limit.getD 50) := rfl
  constructor
  · rw [List.all_eq_true]
    intro se hse
    rw [hresults] at hse
    have h1 := List.take_subset _ _ hse
    have h2 := (sortB_perm _ _).mem_iff.mp h1
    rcases List.mem_filterMap.mp h2 with ⟨e, _, hfe⟩
    by_cases hm : (matchesQuery e.data query).matched
    · rw [if_pos hm] at hfe
      obtain ⟨hscore, hmatch⟩ := matchesQuery_spec e.data query
      cases hfe
      simp only [Bool.and_eq_true, beq_iff_eq]
      refine ⟨hscore, ?_⟩
      rw [← hmatch]
      exact hm
    · rw [if_neg hm] at hfe
      exact Option.noConfusion hfe
  · rw [hresults]
    apply List.Pairwise.sublist (List.take_sublist _ _)
    have hp := sortB_pairwise
      (fun a b : ScoredEntry => decide (b.matchScore ≤ a.matchScore))
      (fun a b => by
        rcases le_total b.matchScore a.matchScore with h | h
        · exact Or.inl (decide_eq_true h)
        · exact Or.inr (decide_eq_true h))
      (fun a b c hab hbc =>
        decide_eq_true (le_trans (of_decide_eq_true hbc) (of_decide_eq_true hab)))
      ((r.storage.map Prod.snd).filterMap fun e =>
        let m := matchesQuery e.data query
        if m.matched then
          some { entry := e, matchScore := m.score, matchedFields := m.fields }
        else none)
    exact hp.imp fun h => of_decide_eq_true h

/-!
## C6: symmetry of `compare`
-/

/-- The `added`↔`removed` swap on classification names. -/
def swapType (t : String) : String :=
  if t == ("added") then ("removed")
  else if t == ("removed") then ("added")
  else t

lemma isUndef_iff (v : Val) : isUndefined v = true ↔ v = .vUndefined := by
  cases v <;> simp [isUndefined]

lemma strictEq_comm (a b : Val) : strictEq a b = strictEq b a := by
  cases a <;> cases b <;> simp [strictEq, eq_comm]

lemma areEqual_comm (a b : Val) : areEqual a b = areEqual b a := by
  have hbeq : ∀ x y : Option String, (x == y) = (y == x) := by
    intro x y
    rw [Bool.eq_iff_iff]
    simp only [beq_iff_eq]
    exact eq_comm
  unfold areEqual
  rw [strictEq_comm]
  by_cases hs : strictEq b a = true
  · simp [hs]
  · simp only [hs, Bool.false_eq_true, if_false]
    by_cases ht : typeofVal a = typeofVal b
    · rw [ht, bne_self_eq_false]
      simp only [Bool.false_eq_true, if_false]
      rw [hbeq]
    · have h1 : (typeofVal a != typeofVal b) = true := by simpa [bne] using ht
      have h2 : (typeofVal b != typeofVal a) = true := by
        simpa [bne] using fun hh => ht hh.symm
      simp [h1, h2]

lemma compareValues_dfield {deep : Bool} {a b : Val} {f : String} {d : Diff}
    (h : compareValues deep a b f = some d) : d.dfield = f := by
  rw [compareValues.eq_def] at h
  repeat' split at h
  all_goals
    first
    | exact Option.noConfusion h
    | (cases h; rfl)

lemma compareValues_swap (deep : Bool) (a b : Val) (f : String) :
    (compareValues deep b a f).map Diff.dtype =
      ((compareValues deep a b f).map Diff.dtype).map swapType := by
  rw [compareValues.eq_def, compareValues.eq_def]
  by_cases hA : isUndefined a
  · by_cases hB : isUndefined b
    · rw [(isUndef_iff a).mp hA, (isUndef_iff b).mp hB]
      simp [areEqual, strictEq, isUndefined]
    · have hBf : isUndefined b = false := Bool.eq_false_iff.mpr hB
      simp [hA, hBf, Diff.dtype, swapType]
  · have hAf : isUndefined a = false := Bool.eq_false_iff.mpr hA
    by_cases hB : isUndefined b
    · simp [hAf, hB, Diff.dtype, swapType]
    · have hBf : isUndefined b = false := Bool.eq_false_iff.mpr hB
      by_cases hE : areEqual a b = true
      · have hE2 : areEqual b a = true := by rw [areEqual_comm]; exact hE
        simp [hAf, hBf, hE, hE2]
      · have hEf : areEqual a b = false := Bool.eq_false_iff.mpr hE
        have hE2f : areEqual b a = false := by rw [areEqual_comm]; exact hEf
        cases deep <;> cases a <;> cases b <;>
          simp_all [Diff.dtype, swapType, typeofVal, isUndefined]

lemma dedupFirstAux_nodup_strings (l : List String) : ∀ (seen : List String),
    (dedupFirstAux (fun a b => a == b) seen l).Nodup ∧
    ∀ x ∈ dedupFirstAux (fun a b => a == b) seen l, x ∉ seen := by
  induction l with
  | nil => intro seen; simp [dedupFirstAux]
  | cons k ks ih =>
    intro seen
    by_cases hs : seen.any (fun y => y == k)
    · rw [dedupFirstAux, if_pos hs]
      exact ih seen
    · rw [dedupFirstAux, if_neg hs]
      obtain ⟨hn, hni⟩ := ih (seen ++ [k])
      constructor
      · refine List.nodup_cons.mpr ⟨?_, hn⟩
        intro hk
        exact hni k hk (List.mem_append.mpr (Or.inr (List.mem_singleton.mpr rfl)))
      · intro x hx hxseen
        rcases List.mem_cons.mp hx with h1 | h2
        · subst h1
          exact hs (List.any_eq_true.mpr ⟨x, hxseen, by simp⟩)
        · exact hni x h2 (List.mem_append.mpr (Or.inl hxseen))

lemma mem_dedupFirstAux_strings (l : List String) : ∀ (seen : List String)
    (x : String), x ∈ l →
    x ∈ seen ∨ x ∈ dedupFirstAux (fun a b => a == b) seen l := by
  induction l with
  | nil => intro seen x hx; simp at hx
  | cons k ks ih =>
    intro seen x hx
    by_cases hs : seen.any (fun y => y == k)
    · rw [dedupFirstAux, if_pos hs]
      rcases List.mem_cons.mp hx with h1 | h2
      · subst h1
        rcases List.any_eq_true.mp hs with ⟨y, hy, hyx⟩
        have hxy : y = x := by simpa using hyx
        exact Or.inl (hxy ▸ hy)
      · exact ih seen x h2
    · rw [dedupFirstAux, if_neg hs]
      rcases List.mem_cons.mp hx with h1 | h2
      · subst h1
        exact Or.inr (List.mem_cons_self _ _)
      · rcases ih (seen ++ [k]) x h2 with h3 | h3
        · rcases List.mem_append.mp h3 with h4 | h4
          · exact Or.inl h4
          · rw [List.mem_singleton] at h4
            exact Or.inr (h4 ▸ List.mem_cons_self _ _)
        · exact Or.inr (List.mem_cons_of_mem _ h3)

lemma mem_dedupFirst_iff_strings (l : List String) (x : String) :
    x ∈ dedupFirst (fun a b => a == b) l ↔ x ∈ l := by
  constructor
  · exact mem_of_mem_dedupFirst
  · intro h
    rcases mem_dedupFirstAux_strings l [] x h with h1 | h1
    · simp at h1
    · exact h1

lemma dedupFirst_nodup_strings (l : List String) :
    (dedupFirst (fun a b => a == b) l).Nodup :=
  (dedupFirstAux_nodup_strings l []).1

/-- Model of `find?` by field name over a keyed `filterMap`: the produced diff of
the searched field, if the field occurs at all. -/
lemma find?_filterMap_by_field (g : String → Option Diff) (f : String)
    (hg : ∀ k d, g k = some d → d.dfield = k) (l : List String) :
    ((l.filterMap g).find? (fun d => d.dfield == f)) =
      if f ∈ l then g f else none := by
  induction l with
  | nil => simp
  | cons k ks ih =>
    rw [List.filterMap_cons]
    cases hgk : g k with
    | none =>
      rw [ih]
      by_cases hmem : f ∈ ks
      · rw [if_pos hmem, if_pos (List.mem_cons_of_mem _ hmem)]
      · by_cases hf : f = k
        · subst hf
          rw [if_neg hmem, if_pos (List.mem_cons_self _ _), hgk]
        · rw [if_neg hmem, if_neg (by simp [List.mem_cons, hf, hmem])]
    | some d =>
      have hd : d.dfield = k := hg k d hgk
      by_cases hf : f = k
      · subst hf
        have hdt : (d.dfield == f) = true := by simp [hd]
        simp [List.find?_cons, hdt, hgk]
      · have hdt : (d.dfield == f) = false := by
          rw [hd]
          simp only [beq_eq_false_iff_ne, ne_eq]
          exact fun hh => hf hh.symm
        simp only [List.find?_cons, hdt, ih]
        by_cases hmem : f ∈ ks
        · rw [if_pos hmem, if_pos (List.mem_cons_of_mem _ hmem)]
        · rw [if_neg hmem, if_neg (by simp [List.mem_cons, hf, hmem])]

lemma length_filterMap (g : α → Option β) (l : List α) :
    (l.filterMap g).length = l.countP (fun x => (g x).isSome) := by
  induction l with
  | nil => rfl
  | cons x xs ih =>
    rw [List.filterMap_cons, List.countP_cons]
    cases hgx : g x <;> simp [hgx, ih]

/-- The classification `compare` reports for a field (the `find?` by
field name over the differences list), or `none` when the field is
reported unchanged. -/
def diffTypeAt (ignoreFields : List String) (deep : Bool) (dataA dataB : Val)
    (f : String) : Option String :=
  ((compareData ignoreFields deep dataA dataB).differences.find?
    (fun d => d.dfield == f)).map Diff.dtype

/-- C6: `compare(B,A)` reports a difference on exactly the same fields
as `compare(A,B)`, the difference lists have equal length, and each
field's classification is swapped `added`↔`removed` and otherwise
identical (`diffTypeAt` is `none` for one direction iff it is for the
other, so the reported field sets coincide). -/
theorem c6_compare_symmetry (ignoreFields : List String) (deep : Bool)
    (a b : Val) (f : String) :
    diffTypeAt ignoreFields deep b a f =
      (diffTypeAt ignoreFields deep a b f).map swapType ∧
    (compareData ignoreFields deep b a).differences.length =
      (compareData ignoreFields deep a b).differences.length := by
  have hgAB : ∀ k d,
      (if ignoreFields.contains k then none
       else compareValues deep (optGet a k) (optGet b k) k) = some d →
      d.dfield = k := by
    intro k d h
    by_cases hc : ignoreFields.contains k
    · rw [if_pos hc] at h
      exact Option.noConfusion h
    · rw [if_neg hc] at h
      exact compareValues_dfield h
  have hgBA : ∀ k d,
      (if ignoreFields.contains k then none
       else compareValues deep (optGet b k) (optGet a k) k) = some d →
      d.dfield = k := by
    intro k d h
    by_cases hc : ignoreFields.contains k
    · rw [if_pos hc] at h
      exact Option.noConfusion h
    · rw [if_neg hc] at h
      exact compareValues_dfield h
  have hpoint : ∀ k,
      ((if ignoreFields.contains k then none
        else compareValues deep (optGet b k) (optGet a k) k).map Diff.dtype) =
      (((if ignoreFields.contains k then none
         else compareValues deep (optGet a k) (optGet b k) k).map
         Diff.dtype).map swapType) := by
    intro k
    by_cases hc : ignoreFields.contains k
    · rw [if_pos hc]
      rw [if_pos hc]
      rfl
    · rw [if_neg hc]
      rw [if_neg hc]
      exact compareValues_swap deep (optGet a k) (optGet b k) k
  have hdAB : (compareData ignoreFields deep a b).differences =
      (dedupFirst (fun x y => x == y) (jsKeys a ++ jsKeys b)).filterMap
        (fun k => if ignoreFields.contains k then none
          else compareValues deep (optGet a k) (optGet b k) k) := rfl
  have hdBA : (compareData ignoreFields deep b a).differences =
      (dedupFirst (fun x y => x == y) (jsKeys b ++ jsKeys a)).filterMap
        (fun k => if ignoreFields.contains k then none
          else compareValues deep (optGet b k) (optGet a k) k) := rfl
  constructor
  · rw [diffTypeAt, diffTypeAt, hdAB, hdBA,
      find?_filterMap_by_field _ f hgBA, find?_filterMap_by_field _ f hgAB]
    by_cases hmem : f ∈ jsKeys a ++ jsKeys b
    · have h1 : f ∈ dedupFirst (fun x y => x == y) (jsKeys a ++ jsKeys b) :=
        (mem_dedupFirst_iff_strings _ _).mpr hmem
      have h2 : f ∈ dedupFirst (fun x y => x == y) (jsKeys b ++ jsKeys a) :=
        (mem_dedupFirst_iff_strings _ _).mpr
          (by
            rcases List.mem_append.mp hmem with h | h
            · exact List.mem_append.mpr (Or.inr h)
            · exact List.mem_append.mpr (Or.inl h))
      rw [if_pos h1, if_pos h2]
      exact hpoint f
    · have h1 : f ∉ dedupFirst (fun x y => x == y) (jsKeys a ++ jsKeys b) :=
        fun hh => hmem ((mem_dedupFirst_iff_strings _ _).mp hh)
      have h2 : f ∉ dedupFirst (fun x y => x == y) (jsKeys b ++ jsKeys a) :=
        fun hh => hmem (by
          rcases List.mem_append.mp ((mem_dedupFirst_iff_strings _ _).mp hh)
            with h | h
          · exact List.mem_append.mpr (Or.inr h)
          · exact List.mem_append.mpr (Or.inl h))
      rw [if_neg h1, if_neg h2]
      rfl
  · rw [hdAB, hdBA, length_filterMap, length_filterMap]
    have hperm : List.Perm
        (dedupFirst (fun x y => x == y) (jsKeys b ++ jsKeys a))
        (dedupFirst (fun x y => x == y) (jsKeys a ++ jsKeys b)) := by
      apply List.perm_of_nodup_nodup_toFinset_eq
        (dedupFirst_nodup_strings _) (dedupFirst_nodup_strings _)
      ext x
      simp only [List.mem_toFinset, mem_dedupFirst_iff_strings,
        List.mem_append]
      exact or_comm
    rw [hperm.countP_eq]
    apply List.countP_congr
    intro k _
    have := congrArg Option.isSome (hpoint k)
    simpa using this

/-!
## C5: export/import round trip
-/

/-- The metadata shape `add` (and, preserving it, `update`) produces:
the seven base keys in their construction order, followed by any extra,
pairwise-distinct keys merged in from `options.metadata`. -/
def wfMetadata (m : List (String × Val)) : Prop :=
  ∃ v1 v2 v3 v4 v5 v6 v7 extras,
    m = [(("schemaId"), v1), (("schemaVersion"), v2), (("extractionId"), v3),
         (("confidence"), v4), (("source"), v5), (("tags"), v6),
         (("category"), v7)] ++ extras ∧
    (∀ p ∈ extras,
      p.1 ∉ [("schemaId"), ("schemaVersion"), ("extractionId"),
             ("confidence"), ("source"), ("tags"), ("category")]) ∧
    (extras.map Prod.fst).Nodup

lemma jsSpread_append (m e1 e2 : List (String × Val)) :
    jsSpread m (e1 ++ e2) = jsSpread (jsSpread m e1) e2 := by
  unfold jsSpread
  exact List.foldl_append _ _ _ _

lemma jsSpread_canon (x1 x2 x3 x4 x5 x6 x7 v1 v2 v3 v4 v5 v6 v7 : Val) :
    jsSpread
      [(("schemaId"), x1), (("schemaVersion"), x2), (("extractionId"), x3),
       (("confidence"), x4), (("source"), x5), (("tags"), x6),
       (("category"), x7)]
      [(("schemaId"), v1), (("schemaVersion"), v2), (("extractionId"), v3),
       (("confidence"), v4), (("source"), v5), (("tags"), v6),
       (("category"), v7)] =
      [(("schemaId"), v1), (("schemaVersion"), v2), (("extractionId"), v3),
       (("confidence"), v4), (("source"), v5), (("tags"), v6),
       (("category"), v7)] := by
  rfl

lemma mapSet_fresh (m : List (String × Val)) (k : String) (v : Val)
    (h : ∀ q ∈ m, q.1 ≠ k) : mapSet m k v = m ++ [(k, v)] := by
  unfold mapSet
  rw [if_neg]
  intro hany
  rcases List.any_eq_true.mp hany with ⟨q, hq, hqk⟩
  exact h q hq (by simpa using hqk)

lemma jsSpread_fresh : ∀ (extras m : List (String × Val)),
    (∀ p ∈ extras, ∀ q ∈ m, q.1 ≠ p.1) →
    ((extras.map Prod.fst).Nodup) →
    jsSpread m extras = m ++ extras := by
  intro extras
  induction extras with
  | nil => intro m _ _; simp [jsSpread]
  | cons p ps ih =>
    intro m hd hn
    have hstep : jsSpread m (p :: ps) = jsSpread (mapSet m p.1 p.2) ps := rfl
    rw [hstep, mapSet_fresh m p.1 p.2
      (fun q hq => hd p (List.mem_cons_self _ _) q hq)]
    rw [List.map_cons, List.nodup_cons] at hn
    have hd2 : ∀ x ∈ ps, ∀ q ∈ m ++ [(p.1, p.2)], q.1 ≠ x.1 := by
      intro x hx q hq
      rcases List.mem_append.mp hq with h1 | h1
      · exact hd x (List.mem_cons_of_mem _ hx) q h1
      · rw [List.mem_singleton] at h1
        subst h1
        intro heq
        exact hn.1 (heq ▸ List.mem_map_of_mem Prod.fst hx)
    rw [ih _ hd2 hn.2, List.append_assoc]
    rfl

lemma jsSpread_wf (x1 x2 x3 x4 x5 x6 x7 : Val) (m : List (String × Val))
    (hw : wfMetadata m) :
    jsSpread
      [(("schemaId"), x1), (("schemaVersion"), x2), (("extractionId"), x3),
       (("confidence"), x4), (("source"), x5), (("tags"), x6),
       (("category"), x7)] m = m := by
  obtain ⟨v1, v2, v3, v4, v5, v6, v7, extras, hm, hdisj, hnodup⟩ := hw
  subst hm
  rw [jsSpread_append, jsSpread_canon]
  rw [jsSpread_fresh extras _ ?_ hnodup]
  intro p hp q hq
  have hnot := hdisj p hp
  simp only [List.mem_cons, List.not_mem_nil, or_false, not_or] at hnot
  obtain ⟨n1, n2, n3, n4, n5, n6, n7⟩ := hnot
  simp only [List.mem_cons, List.not_mem_nil, or_false] at hq
  rcases hq with rfl | rfl | rfl | rfl | rfl | rfl | rfl <;>
    (intro heq; simp_all)

/-- The reconstructed fields of one re-added full entry. -/
lemma import_entry_fields (r0 : Register) (e : Entry) (now : Int)
    (hw : wfMetadata e.metadata) (hd : valTruthy e.data = true)
    (hdd : valTruthy (optGet e.data ("data")) = false) :
    (freshEntry r0 (jsOr (itemData (.full e)) (listedToVal (.full e)))
      (importOpts (.full e)) ((importOpts (.full e)).id.getD (itemId (.full e)))
      now).data = e.data ∧
    (freshEntry r0 (jsOr (itemData (.full e)) (listedToVal (.full e)))
      (importOpts (.full e)) ((importOpts (.full e)).id.getD (itemId (.full e)))
      now).metadata = e.metadata ∧
    (freshEntry r0 (jsOr (itemData (.full e)) (listedToVal (.full e)))
      (importOpts (.full e)) ((importOpts (.full e)).id.getD (itemId (.full e)))
      now).effectiveFrom = e.effectiveFrom ∧
    (freshEntry r0 (jsOr (itemData (.full e)) (listedToVal (.full e)))
      (importOpts (.full e)) ((importOpts (.full e)).id.getD (itemId (.full e)))
      now).effectiveTo = e.effectiveTo := by
  have hdoc : jsOr (itemData (.full e)) (listedToVal (.full e)) = e.data := by
    rw [itemData, jsOr, if_pos hd]
  refine ⟨?_, ?_, rfl, rfl⟩
  · show jsOr (optGet (jsOr (itemData (.full e)) (listedToVal (.full e))) ("data"))
      (jsOr (itemData (.full e)) (listedToVal (.full e))) = e.data
    rw [hdoc, jsOr, if_neg (by rw [hdd]; exact Bool.false_ne_true)]
  · show jsSpread _ (importOpts (.full e)).metadata = e.metadata
    rw [hdoc]
    exact jsSpread_wf _ _ _ _ _ _ _ e.metadata hw

lemma importStep_snd_eq (skip : Bool) (now : Int) (res1 res2 : ImportResult)
    (r : Register) (it : ListedEntry) :
    (importStep skip now (res1, r) it).2 = (importStep skip now (res2, r) it).2 := by
  unfold importStep
  by_cases h : (skip = true) ∧ (mapGet r.storage (itemId it)).isSome = true <;>
    simp [h]

lemma foldl_importStep_snd (skip : Bool) (now : Int) :
    ∀ (items : List ListedEntry) (res1 res2 : ImportResult) (r : Register),
    (items.foldl (importStep skip now) (res1, r)).2 =
      (items.foldl (importStep skip now) (res2, r)).2 := by
  intro items
  induction items with
  | nil => intro res1 res2 r; rfl
  | cons it rest ih =>
    intro res1 res2 r
    rw [List.foldl_cons, List.foldl_cons]
    have h2 := importStep_snd_eq skip now res1 res2 r it
    rcases hsplit1 : importStep skip now (res1, r) it with ⟨a1, s1⟩
    rcases hsplit2 : importStep skip now (res2, r) it with ⟨a2, s2⟩
    rw [hsplit1, hsplit2] at h2
    simp only at h2
    subst h2
    exact ih a1 a2 s1

lemma importRegister_cons_snd (r : Register) (it : ListedEntry)
    (items : List ListedEntry) (now : Int) :
    (importRegister r (it :: items) false now).2 =
      (importRegister
        ((add r (jsOr (itemData it) (listedToVal it)) (importOpts it)
          (itemId it) now).2) items false now).2 := by
  rw [importRegister, importRegister, List.foldl_cons]
  have hstep : importStep false now
      ({ imported := 0, skipped := 0, errors := [] }, r) it =
      ({ imported := 1, skipped := 0, errors := [] },
       (add r (jsOr (itemData it) (listedToVal it)) (importOpts it)
         (itemId it) now).2) := by
    unfold importStep
    simp
  rw [hstep]
  exact foldl_importStep_snd false now items _ _ _

lemma importRegister_preserves (now : Int) :
    ∀ (items : List ListedEntry) (r : Register) (id : String),
    (∀ it ∈ items, itemId it ≠ id) →
    mapGet ((importRegister r items false now).2).storage id =
      mapGet r.storage id := by
  intro items
  induction items with
  | nil => intro r id _; rfl
  | cons it rest ih =>
    intro r id h
    rw [importRegister_cons_snd]
    rw [ih _ id (fun x hx => h x (List.mem_cons_of_mem _ hx))]
    rw [add_snd_storage]
    exact mapGet_mapSet_ne _ _ _ _ (h it (List.mem_cons_self _ _))

lemma importRegister_lookup (now : Int) :
    ∀ (items : List ListedEntry) (r0 : Register) (e : Entry),
    (.full e) ∈ items →
    ((items.map itemId).Nodup) →
    wfMetadata e.metadata →
    valTruthy e.data = true →
    valTruthy (optGet e.data ("data")) = false →
    ∃ e2, mapGet ((importRegister r0 items false now).2).storage e.id =
        some e2 ∧
      e2.data = e.data ∧ e2.metadata = e.metadata ∧
      e2.effectiveFrom = e.effectiveFrom ∧ e2.effectiveTo = e.effectiveTo := by
  intro items
  induction items with
  | nil => intro r0 e hmem; simp at hmem
  | cons it rest ih =>
    intro r0 e hmem hnodup hw hd hdd
    rw [List.map_cons, List.nodup_cons] at hnodup
    rcases List.mem_cons.mp hmem with h1 | h2
    · subst h1
      rw [importRegister_cons_snd]
      rw [importRegister_preserves now rest _ e.id
        (fun x hx heq => hnodup.1 (by
          rw [show itemId (ListedEntry.full e) = itemId x from heq.symm]
          exact List.mem_map_of_mem itemId hx))]
      rw [add_snd_storage]
      obtain ⟨f1, f2, f3, f4⟩ := import_entry_fields r0 e now hw hd hdd
      have hkey : (importOpts (.full e)).id.getD (itemId (.full e)) = e.id := rfl
      rw [hkey]
      exact ⟨_, mapGet_mapSet_self _ _ _, hkey ▸ f1, hkey ▸ f2, hkey ▸ f3,
        hkey ▸ f4⟩
    · rw [importRegister_cons_snd]
      exact ih _ e h2 hnodup.2 hw hd hdd

/-- Model of `export` with default options lists every stored entry in full,
sorted by the default comparator (a permutation of the stored values). -/
lemma export_entries (r : Register) (now : Int) :
    (exportRegister r emptyListOptions false now).entries =
      (sortB
        (fun a b => !(jsLt (sortVal a ("updatedAt")) (sortVal b ("updatedAt"))))
        (r.storage.map Prod.snd)).map ListedEntry.full := by
  rfl

/-- C5 as amended: `export` then `import` into a fresh register
reconstructs identical `data`/`metadata`/`effectiveFrom`/`effectiveTo`
for every entry whose stored data is truthy and does not itself carry a
truthy `data` key (such data is unwrapped again by the re-`add`, see the
counterexample) — the stored ids being unique and the metadata having
the canonical key layout `add`/`update` produce. -/
theorem c5_export_import_roundtrip (r : Register) (now now2 : Int)
    (id : String) (e : Entry)
    (hids : (r.storage.map Prod.fst).Nodup)
    (hid : ∀ p ∈ r.storage, p.2.id = p.1)
    (hwf : ∀ p ∈ r.storage, wfMetadata p.2.metadata)
    (hdata : ∀ p ∈ r.storage, valTruthy p.2.data = true)
    (hdd : ∀ p ∈ r.storage, valTruthy (optGet p.2.data ("data")) = false)
    (he : (id, e) ∈ r.storage) :
    ∃ e2, mapGet ((importRegister emptyRegister
        (exportRegister r emptyListOptions false now).entries false
        now2).2).storage id = some e2 ∧
      e2.data = e.data ∧ e2.metadata = e.metadata ∧
      e2.effectiveFrom = e.effectiveFrom ∧ e2.effectiveTo = e.effectiveTo := by
  have heid : e.id = id := hid (id, e) he
  rw [export_entries, ← heid]
  apply importRegister_lookup now2 _ emptyRegister e ?memgoal ?nodupgoal
    (hwf _ he) (hdata _ he) (hdd _ he)
  case memgoal =>
    exact List.mem_map_of_mem ListedEntry.full
      ((sortB_perm _ _).mem_iff.mpr (List.mem_map_of_mem Prod.snd he))
  case nodupgoal =>
    have h1 : (((sortB
        (fun a b => !(jsLt (sortVal a ("updatedAt")) (sortVal b ("updatedAt"))))
        (r.storage.map Prod.snd)).map ListedEntry.full).map itemId) =
        ((sortB
          (fun a b => !(jsLt (sortVal a ("updatedAt")) (sortVal b ("updatedAt"))))
          (r.storage.map Prod.snd)).map (fun x => x.id)) := by
      rw [List.map_map]
      rfl
    have h2 := ((sortB_perm
      (fun a b => !(jsLt (sortVal a ("updatedAt")) (sortVal b ("updatedAt"))))
      (r.storage.map Prod.snd)).map (fun x : Entry => x.id))
    have h3 : (r.storage.map Prod.snd).map (fun x => x.id) =
        r.storage.map Prod.fst := by
      rw [List.map_map]
      exact List.map_congr_left (fun p hp => hid p hp)
    rw [h1]
    exact h2.nodup_iff.mpr (h3 ▸ hids)

/-- C5 (refuting the claim on the code): a register entry whose data
mapping carries a truthy `data` key is not reconstructed by
export-then-import: the stored data `\x7b data: "x" \x7d` comes back as
the bare string `"x"`, because `add` re-applies the
`document.data || document` unwrapping to the re-imported record. -/
theorem c5_roundtrip_counterexample :
    (let r := (add emptyRegister
        (.vObj [(("data"), .vObj [(("data"), .vStr ("x"))])])
        { emptyAddOptions with id := some ("a"), effectiveFrom := some 0 }
        ("g") 0).2
     ((mapGet r.storage ("a")).map Entry.data =
        some (.vObj [(("data"), .vStr ("x"))])) ∧
     ((mapGet ((importRegister emptyRegister
          (exportRegister r emptyListOptions false 1).entries false
          2).2).storage ("a")).map Entry.data = some (.vStr ("x")))) :=
  ⟨rfl, rfl⟩

def c5Doc : Val := .vObj [(("amount"), .vNum 5)]

def c5Opts : AddOptions :=
  { emptyAddOptions with id := some ("a"), effectiveFrom := some 0 }

def c5Reg : Register := (add emptyRegister c5Doc c5Opts ("g") 0).2

def c5Entry : Entry := freshEntry emptyRegister c5Doc c5Opts ("a") 0

theorem c5_export_import_roundtrip_witness :
    ∃ e2, mapGet ((importRegister emptyRegister
        (exportRegister c5Reg emptyListOptions false 1).entries false
        2).2).storage ("a") = some e2 ∧
      e2.data = c5Entry.data ∧ e2.metadata = c5Entry.metadata ∧
      e2.effectiveFrom = c5Entry.effectiveFrom ∧
      e2.effectiveTo = c5Entry.effectiveTo := by
  have hs : c5Reg.storage = [(("a"), c5Entry)] := rfl
  apply c5_export_import_roundtrip c5Reg 1 2 ("a") c5Entry
  · rw [hs]
    exact List.nodup_singleton _
  · rw [hs]
    intro p hp
    rw [List.mem_singleton.mp hp]
    rfl
  · rw [hs]
    intro p hp
    rw [List.mem_singleton.mp hp]
    exact ⟨.vNull, .vUndefined, .vUndefined, .vUndefined, .vNull, .vArr [], .vNull, [],
      rfl, by simp, List.nodup_nil⟩
  · rw [hs]
    intro p hp
    rw [List.mem_singleton.mp hp]
    rfl
  · rw [hs]
    intro p hp
    rw [List.mem_singleton.mp hp]
    rfl
  · rw [hs]
    exact List.mem_singleton.mpr rfl

end DocSchema
